import Mathlib

/-!
Verification development for the PySDD core: a shallow embedding of the
circuit data model (`SddNode`), the vtree data model (`Vtree`), the DOT
exporters of `pysdd/io.py` (`sdd_to_dot`, `vtree_to_dot` and their internal
traversals), and — modelled from the specification, since `pysdd/util.py`
is not part of the visible source — the weighted model counter.

Python's mutable visited set is threaded explicitly through the traversal;
Python's `None`-returning fall-through branch is `Option.none`; Python
exceptions are values of `PyError`.
-/

namespace PySDD

/-- A key usable in the Python `litnamemap` dictionary: the code calls
`litnamemap.get(name, name)` where `name` is either an integer (a literal
value or a vtree variable) or a glyph string, so keys are modelled as a sum. -/
inductive LabelKey where
| int (i : Int)
| str (s : String)
deriving DecidableEq

/-- Rendering a key with Python `f"{name}"`. -/
def LabelKey.render : LabelKey → String
| .int i => toString i
| .str s => s

/-- `d.get(k)` on an association-list model of a Python dict. -/
def lookupKey : List (LabelKey × String) → LabelKey → Option String
| [], _ => none
| (k, v) :: rest, key => if k = key then some v else lookupKey rest key

mutual
/-- The SDD circuit DAG node (pysdd's `SddNode` as used by `io.py`): four
variants False / True / Literal / Decision, each carrying the stable integer
`id` and the (optional) position of the associated vtree node, which is all
`_format_sddnode_xlabel` reads from `node.vtree()`. Sharing in the DAG is by
equal `id` (the spec keys visited sets by node identity = id). -/
inductive SddNode where
| fls (id : Nat) (vtreePos : Option Nat)
| tru (id : Nat) (vtreePos : Option Nat)
| lit (id : Nat) (literal : Int) (vtreePos : Option Nat)
| dec (id : Nat) (elems : SddElems) (vtreePos : Option Nat)

/-- The ordered element list of a Decision node: pairs `(prime, sub)`. -/
inductive SddElems where
| nil
| cons (prime : SddNode) (sub : SddNode) (rest : SddElems)
end

mutual
def SddNode.decEqN : (a b : SddNode) → Decidable (a = b)
| .fls i v, .fls j w =>
  if h : i = j ∧ v = w then .isTrue (by rw [h.1, h.2]) else
  .isFalse (by intro he; cases he; exact h ⟨rfl, rfl⟩)
| .tru i v, .tru j w =>
  if h : i = j ∧ v = w then .isTrue (by rw [h.1, h.2]) else
  .isFalse (by intro he; cases he; exact h ⟨rfl, rfl⟩)
| .lit i l v, .lit j m w =>
  if h : i = j ∧ l = m ∧ v = w then .isTrue (by rw [h.1, h.2.1, h.2.2]) else
  .isFalse (by intro he; cases he; exact h ⟨rfl, rfl, rfl⟩)
| .dec i e v, .dec j f w =>
  match SddElems.decEqE e f with
  | .isTrue he =>
    if h : i = j ∧ v = w then .isTrue (by rw [h.1, he, h.2]) else
    .isFalse (by intro hq; cases hq; exact h ⟨rfl, rfl⟩)
  | .isFalse he => .isFalse (by intro hq; cases hq; exact he rfl)
| .fls _ _, .tru _ _ => .isFalse (by intro h; cases h)
| .fls _ _, .lit _ _ _ => .isFalse (by intro h; cases h)
| .fls _ _, .dec _ _ _ => .isFalse (by intro h; cases h)
| .tru _ _, .fls _ _ => .isFalse (by intro h; cases h)
| .tru _ _, .lit _ _ _ => .isFalse (by intro h; cases h)
| .tru _ _, .dec _ _ _ => .isFalse (by intro h; cases h)
| .lit _ _ _, .fls _ _ => .isFalse (by intro h; cases h)
| .lit _ _ _, .tru _ _ => .isFalse (by intro h; cases h)
| .lit _ _ _, .dec _ _ _ => .isFalse (by intro h; cases h)
| .dec _ _ _, .fls _ _ => .isFalse (by intro h; cases h)
| .dec _ _ _, .tru _ _ => .isFalse (by intro h; cases h)
| .dec _ _ _, .lit _ _ _ => .isFalse (by intro h; cases h)

def SddElems.decEqE : (a b : SddElems) → Decidable (a = b)
| .nil, .nil => .isTrue rfl
| .nil, .cons _ _ _ => .isFalse (by intro h; cases h)
| .cons _ _ _, .nil => .isFalse (by intro h; cases h)
| .cons p s r, .cons q t u =>
  match SddNode.decEqN p q, SddNode.decEqN s t, SddElems.decEqE r u with
  | .isTrue h1, .isTrue h2, .isTrue h3 => .isTrue (by rw [h1, h2, h3])
  | .isFalse h1, _, _ => .isFalse (by intro h; cases h; exact h1 rfl)
  | _, .isFalse h2, _ => .isFalse (by intro h; cases h; exact h2 rfl)
  | _, _, .isFalse h3 => .isFalse (by intro h; cases h; exact h3 rfl)
end

instance : DecidableEq SddNode := SddNode.decEqN

instance : DecidableEq SddElems := SddElems.decEqE

/-- `node.id`. -/
def SddNode.id : SddNode → Nat
| .fls i _ => i
| .tru i _ => i
| .lit i _ _ => i
| .dec i _ _ => i

/-- `node.literal` (only ever read on Literal nodes by the source). -/
def SddNode.literal : SddNode → Int
| .lit _ l _ => l
| _ => 0

/-- The position of `node.vtree()` when the node has an associated vtree
node, `none` when `node.vtree()` is Python `None`. -/
def SddNode.vtreePos : SddNode → Option Nat
| .fls _ v => v
| .tru _ v => v
| .lit _ _ v => v
| .dec _ _ v => v

/-- `node.is_false()`. -/
def SddNode.isFalseN : SddNode → Bool
| .fls _ _ => true
| _ => false

/-- `node.is_true()`. -/
def SddNode.isTrueN : SddNode → Bool
| .tru _ _ => true
| _ => false

/-- `node.is_literal()`. -/
def SddNode.isLiteralN : SddNode → Bool
| .lit _ _ _ => true
| _ => false

/-- `node.is_decision()`. -/
def SddNode.isDecisionN : SddNode → Bool
| .dec _ _ _ => true
| _ => false

/-- `node.elements()` as a Lean list of `(prime, sub)` pairs. -/
def SddElems.toList : SddElems → List (SddNode × SddNode)
| .nil => []
| .cons p s rest => (p, s) :: rest.toList

/-- Length of an element list. -/
def SddElems.length : SddElems → Nat
| .nil => 0
| .cons _ _ rest => rest.length + 1

/-- Python exceptions raised (explicitly or implicitly) by `pysdd/io.py`:
`ValueError` with its message, `AttributeError` from calling a method on
`None`, and `TypeError` from `s += None`. -/
inductive PyError where
| valueError (msg : String)
| attributeError
| typeError
deriving DecidableEq

/-- Embeds `_format_sddnode_label(node, name, litnamemap)`: choose the
preliminary name (the passed name, else the True glyph, else the False glyph,
else `node.literal`), then remap it through `litnamemap.get(name, name)`
and render with `f"{name}"`. -/
def format_sddnode_label (node : SddNode) (name : Option LabelKey)
    (litnamemap : Option (List (LabelKey × String))) : String :=
  let name1 : LabelKey :=
    match name with
    | some n => n
    | none =>
      if node.isTrueN then .str "⟙"
      else if node.isFalseN then .str "⟘"
      else .int node.literal
  match litnamemap with
  | none => name1.render
  | some m =>
    match lookupKey m name1 with
    | some v => v
    | none => name1.render

/-- Embeds `_format_sddnode_xlabel(node)`. -/
def format_sddnode_xlabel (node : SddNode) : String :=
  let vtree_pos : String :=
    match node.vtreePos with
    | some p => toString p
    | none => "n"
  "Id:" ++ toString node.id ++ "\\nVp:" ++ vtree_pos

/-- The statement declaring a False/True/Literal node (io.py line 65). -/
def rectangleLine (node : SddNode) (litnamemap : Option (List (LabelKey × String)))
    (show_id : Bool) : String :=
  let label := format_sddnode_label node none litnamemap
  let extra_options := if show_id then ",xlabel=\"" ++ format_sddnode_xlabel node ++ "\"" else ""
  toString node.id ++ " [shape=rectangle,label=\"" ++ label ++ "\"" ++ extra_options ++ "];"

/-- The statement declaring a Decision node (io.py line 71). -/
def circleLine (node : SddNode) (litnamemap : Option (List (LabelKey × String)))
    (show_id : Bool) : String :=
  let label := format_sddnode_label node (some (.str "+")) litnamemap
  let extra_options := if show_id then ",xlabel=\"" ++ format_sddnode_xlabel node ++ "\"" else ""
  toString node.id ++ " [shape=circle,label=\"" ++ label ++ "\"" ++ extra_options ++ "];"

/-- `ps_id = "ps_{}_{}".format(node.id, idx)`. -/
def psId (nid idx : Nat) : String :=
  "ps_" ++ toString nid ++ "_" ++ toString idx

/-- The synthetic product-node declaration for element `idx` (io.py line 75). -/
def psDeclLine (nid idx : Nat) : String :=
  psId nid idx ++ " [shape=circle, label=\"×\"];"

/-- The edge from a decision node to the product node of element `idx`. -/
def decToPsLine (nid idx : Nat) : String :=
  toString nid ++ " -> " ++ psId nid idx ++ " [arrowhead=none];"

/-- The edge from a product node to a child (prime or sub) with id `cid`. -/
def psToChildLine (nid idx cid : Nat) : String :=
  psId nid idx ++ " -> " ++ toString cid ++ ";"

mutual
/-- Embeds `_sddnode_to_dot_int(node, visited, litnamemap, show_id)`.
The Python function mutates the shared `visited` set and returns a list of
DOT statements — or falls off the end (returns `None`) if the node matches
none of the four variant predicates; here the visited set is threaded
explicitly and the fall-through is `Option.none`. -/
def sddnode_to_dot_int (node : SddNode) (visited : List Nat)
    (litnamemap : Option (List (LabelKey × String))) (show_id : Bool) :
    Option (List String × List Nat) :=
  if node.id ∈ visited then some ([], visited)
  else
    let visited1 := node.id :: visited
    if node.isFalseN || node.isTrueN || node.isLiteralN then
      some ([rectangleLine node litnamemap show_id], visited1)
    else
      match node with
      | .dec nid elems _ =>
        match sddelems_to_dot_int nid elems 0 visited1 litnamemap show_id with
        | some (s, visited2) => some (circleLine node litnamemap show_id :: s, visited2)
        | none => none
      | _ => none

/-- The `for idx, (prime, sub) in enumerate(node.elements())` loop body of
`_sddnode_to_dot_int`: emit the product node, the three edges, then recurse
into the prime and into the sub (sharing the visited set). -/
def sddelems_to_dot_int (nid : Nat) (elems : SddElems) (idx : Nat) (visited : List Nat)
    (litnamemap : Option (List (LabelKey × String))) (show_id : Bool) :
    Option (List String × List Nat) :=
  match elems with
  | .nil => some ([], visited)
  | .cons prime sub rest =>
    let lines := [psDeclLine nid idx, decToPsLine nid idx,
                  psToChildLine nid idx prime.id, psToChildLine nid idx sub.id]
    match sddnode_to_dot_int prime visited litnamemap show_id with
    | none => none
    | some (sp, v1) =>
      match sddnode_to_dot_int sub v1 litnamemap show_id with
      | none => none
      | some (ss, v2) =>
        match sddelems_to_dot_int nid rest (idx + 1) v2 litnamemap show_id with
        | none => none
        | some (sr, v3) => some (lines ++ sp ++ ss ++ sr, v3)
end

/-- Embeds `sdd_to_dot(node, litnamemap, show_id)`: raise
`ValueError("No root node given")` on a `None` root, else wrap the internal
traversal (started with a fresh empty visited set) in the digraph header and
footer. A `None` from the traversal would make Python's `s += ...` raise
`TypeError`. -/
def sdd_to_dot (node : Option SddNode) (litnamemap : Option (List (LabelKey × String)))
    (show_id : Bool) : Except PyError String :=
  match node with
  | none => .error (.valueError "No root node given")
  | some n =>
    match sddnode_to_dot_int n [] litnamemap show_id with
    | none => .error .typeError
    | some (body, _) =>
      .ok (String.intercalate "\n" (["digraph sdd \x7b"] ++ body ++ ["\x7d"]))

/-- The vtree: a leaf holds one variable, an internal node holds two
children; every node has a stable position index (`
vtree.position()`). `vtree.left()`/`vtree.right()` return Python `None`
exactly on leaves. -/
inductive Vtree where
| leaf (position : Nat) (varIdx : Nat)
| node (position : Nat) (left : Vtree) (right : Vtree)
deriving DecidableEq

/-- `vtree.position()`. -/
def Vtree.position : Vtree → Nat
| .leaf p _ => p
| .node p _ _ => p

/-- `vtree.left()` (`None` on a leaf). -/
def Vtree.left : Vtree → Option Vtree
| .leaf _ _ => none
| .node _ l _ => some l

/-- `vtree.right()` (`None` on a leaf). -/
def Vtree.right : Vtree → Option Vtree
| .leaf _ _ => none
| .node _ _ r => some r

/-- `vtree.var()` (only read on leaves by the source). -/
def Vtree.varIdx : Vtree → Nat
| .leaf _ v => v
| .node _ _ _ => 0

/-- The mapped name of a leaf: `litnamemap.get(name, name)` applied to the
variable, then rendered. -/
def vtreeLeafName (litnamemap : Option (List (LabelKey × String))) (v : Nat) : String :=
  let name : LabelKey := .int (Int.ofNat v)
  match litnamemap with
  | none => name.render
  | some m =>
    match lookupKey m name with
    | some w => w
    | none => name.render

/-- The node-declaration statement emitted for a vtree node by
`_vtree_to_dot_int`: a labeled box for a leaf (both children `None`), a
point otherwise (labeled with its own position when `show_id`). -/
def vtreeNodeLine (vtree : Vtree) (litnamemap : Option (List (LabelKey × String)))
    (show_id : Bool) : String :=
  match vtree.left, vtree.right with
  | none, none =>
    toString vtree.position ++ " [label=\"" ++ vtreeLeafName litnamemap vtree.varIdx
      ++ "\",shape=\"box\"];"
  | _, _ =>
    if show_id then
      toString vtree.position ++ " [label=\"" ++ toString vtree.position ++ "\",shape=\"point\"];"
    else
      toString vtree.position ++ " [shape=\"point\"];"

/-- The edge statement from a vtree node to one child; `pad` is `""` for the
left child and the five spaces of the source for the right child. -/
def vtreeEdgeLine (parentPos childPos : Nat) (pad : String) (show_id : Bool) : String :=
  let extra_options :=
    if show_id then ",headclip=true,headlabel=\"" ++ pad ++ toString childPos ++ "\"" else ""
  toString parentPos ++ " -> " ++ toString childPos ++ " [arrowhead=none" ++ extra_options ++ "];"

/-- Embeds `_vtree_to_dot_int(vtree, litnamemap, show_id)`: declare this
node (box when both children are `None`, point otherwise), then for each
present child emit the edge and recurse. -/
def vtree_to_dot_int (vtree : Vtree) (litnamemap : Option (List (LabelKey × String)))
    (show_id : Bool) : List String :=
  match vtree with
  | .leaf _ _ => [vtreeNodeLine vtree litnamemap show_id]
  | .node p l r =>
    [vtreeNodeLine vtree litnamemap show_id]
    ++ ([vtreeEdgeLine p l.position "" show_id] ++ vtree_to_dot_int l litnamemap show_id)
    ++ ([vtreeEdgeLine p r.position "     " show_id] ++ vtree_to_dot_int r litnamemap show_id)

/-- The `start` pseudo-node declaration emitted by `vtree_to_dot` when
`show_id` is set. -/
def startDeclLine : String := "start [shape=plaintext,style=invis];"

/-- The invisible `start -> root` edge carrying the root position label,
emitted by `vtree_to_dot` when `show_id` is set. -/
def startEdgeLine (vtree : Vtree) : String :=
  "start -> " ++ toString vtree.position
    ++ " [penwidth=0,arrowhead=none,headlabel=\"" ++ toString vtree.position ++ "\"];"

/-- The full statement list assembled by `vtree_to_dot`'s local `s`. -/
def vtreeDotStatements (vtree : Vtree) (litnamemap : Option (List (LabelKey × String)))
    (show_id : Bool) : List String :=
  ["digraph vtree \x7b"]
  ++ (if show_id then [startDeclLine, startEdgeLine vtree] else [])
  ++ vtree_to_dot_int vtree litnamemap show_id
  ++ ["\x7d"]

/-- Embeds `vtree_to_dot(vtree, litnamemap, show_id)`. There is no `None`
check: a `None` vtree reaches `vtree.position()` or `vtree.left()` and
raises `AttributeError`. -/
def vtree_to_dot (vtree : Option Vtree) (litnamemap : Option (List (LabelKey × String)))
    (show_id : Bool) : Except PyError String :=
  match vtree with
  | none => .error .attributeError
  | some vt => .ok (String.intercalate "\n" (vtreeDotStatements vt litnamemap show_id))

/-- All subtrees of a vtree (the nodes visited by `_vtree_to_dot_int`). -/
def Vtree.subtrees : Vtree → List Vtree
| .leaf p v => [.leaf p v]
| .node p l r => .node p l r :: (l.subtrees ++ r.subtrees)

/-- The typed failure of the weighted model counter: a reachable literal has
no entry in the weight mapping (spec §4.2 / §7, `MissingWeight`). -/
inductive WmcErr where
| missingWeight
deriving DecidableEq

mutual
/-- Modelled from the spec: `weighted_model_count(root, weights)` of §4.2.
The counting code (`pysdd/util.py`) is not part of the visible source, only
its tests; the spec fixes it by the recursive equations value(False) = 0,
value(True) = 1, value(Literal l) = weights[l], value(Decision e₁..eₙ) =
Σᵢ value(primeᵢ) · value(subᵢ), failing with `MissingWeight` when a
reachable literal has no entry in `weights`. Weights live in an arbitrary
commutative semiring (the reals of the spec are shallowly embedded as `ℚ`
when concrete values are needed). -/
def weighted_model_count {R : Type} [CommSemiring R] :
    SddNode → (Int → Option R) → Except WmcErr R
| .fls _ _, _ => .ok 0
| .tru _ _, _ => .ok 1
| .lit _ l _, w =>
  match w l with
  | some r => .ok r
  | none => .error .missingWeight
| .dec _ es _, w => wmcElems es w

/-- Modelled from the spec: the Σᵢ value(primeᵢ) · value(subᵢ) accumulation
over a Decision node's elements, propagating `MissingWeight`. -/
def wmcElems {R : Type} [CommSemiring R] :
    SddElems → (Int → Option R) → Except WmcErr R
| .nil, _ => .ok 0
| .cons p s rest, w =>
  match weighted_model_count p w with
  | .error e => .error e
  | .ok a =>
    match weighted_model_count s w with
    | .error e => .error e
    | .ok b =>
      match wmcElems rest w with
      | .error e => .error e
      | .ok c => .ok (a * b + c)
end

mutual
/-- The Boolean function represented by a circuit node (spec §3): False and
True are the constants, a Literal tests its variable with its polarity, and
a Decision node is the disjunction over its elements of prime AND sub. -/
def evalNode : SddNode → (Nat → Bool) → Bool
| .fls _ _, _ => false
| .tru _ _, _ => true
| .lit _ l _, a => if 0 < l then a l.natAbs else !(a l.natAbs)
| .dec _ es _, a => evalElems es a

/-- Disjunction over the elements of prime AND sub. -/
def evalElems : SddElems → (Nat → Bool) → Bool
| .nil, _ => false
| .cons p s rest, a => (evalNode p a && evalNode s a) || evalElems rest a
end

mutual
/-- The literals reachable in the sub-DAG under a node. -/
def litsOf : SddNode → List Int
| .fls _ _ => []
| .tru _ _ => []
| .lit _ l _ => [l]
| .dec _ es _ => litsOfElems es

/-- The literals reachable in an element list. -/
def litsOfElems : SddElems → List Int
| .nil => []
| .cons p s rest => litsOf p ++ litsOf s ++ litsOfElems rest
end

/-- Point update of a variable assignment. -/
def updateFn (a : Nat → Bool) (v : Nat) (b : Bool) : Nat → Bool :=
  fun u => if u = v then b else a u

/-- Modelled from the spec: the standard weighted model count of a Boolean
function `f` over the variables `vars` — the sum, over all assignments to
`vars` (extending the ambient assignment `a`), of the product of the chosen
literal weights `w(+v)` / `w(-v)`, counting only satisfying assignments. -/
def semSum {R : Type} [CommSemiring R] (w : Int → R) :
    List Nat → (Nat → Bool) → ((Nat → Bool) → Bool) → R
| [], a, f => if f a then 1 else 0
| v :: vs, a, f =>
  w (Int.ofNat v) * semSum w vs (updateFn a v true) f
  + w (-(Int.ofNat v)) * semSum w vs (updateFn a v false) f

/-- Two element primes are logically exclusive. -/
def ExclPair (x y : SddNode × SddNode) : Prop :=
  ∀ a, ¬(evalNode x.1 a = true ∧ evalNode y.1 a = true)

/-- Scope-correct ("smooth" structured) circuits, the well-formedness under
which the recursive weighted count agrees with the semantic one: a False
node has any scope, a True node has empty scope, a Literal is scoped to
exactly its variable, and a Decision node splits its scope into a prime part
and a disjoint sub part shared by all elements, whose primes are pairwise
logically exclusive. -/
inductive Wf : SddNode → List Nat → Prop where
| fls : ∀ i vp V, Wf (.fls i vp) V
| tru : ∀ i vp, Wf (.tru i vp) []
| lit : ∀ i l vp, l ≠ 0 → Wf (.lit i l vp) [l.natAbs]
| dec : ∀ i es vp Vp Vs,
    (∀ p s, (p, s) ∈ es.toList → Wf p Vp) →
    (∀ p s, (p, s) ∈ es.toList → Wf s Vs) →
    (∀ v, v ∈ Vp → v ∉ Vs) →
    List.Pairwise ExclPair es.toList →
    Wf (.dec i es vp) (Vp ++ Vs)

/-- The spec's own stated well-formedness invariant on Decision nodes
(§3): elements are pairwise logically exclusive and collectively
exhaustive. -/
def SpecDecisionOk (es : SddElems) : Prop :=
  List.Pairwise ExclPair es.toList
  ∧ ∀ a, (es.toList.any fun e => evalNode e.1 a) = true

mutual
/-- Spec §3 well-formedness of a whole circuit: every Decision node in the
DAG has pairwise exclusive and collectively exhaustive elements. -/
def SpecWfN : SddNode → Prop
| .fls _ _ => True
| .tru _ _ => True
| .lit _ _ _ => True
| .dec _ es _ => SpecDecisionOk es ∧ SpecWfE es

/-- Spec §3 well-formedness, elementwise. -/
def SpecWfE : SddElems → Prop
| .nil => True
| .cons p s rest => SpecWfN p ∧ SpecWfN s ∧ SpecWfE rest
end

/-- Does this DOT statement declare the node with integer id `i`? (Node
declarations are exactly the statements beginning with the id followed by
an opening bracket; edges continue with an arrow, product nodes with a
non-numeric `ps_` id.) -/
def declHit (i : Nat) (line : String) : Bool :=
  (toString i ++ " [").data.isPrefixOf line.data

/-- Number of statements declaring node id `i`. -/
def declCount (i : Nat) (lines : List String) : Nat :=
  lines.countP (declHit i)

/-- Number of occurrences of one exact statement. -/
def lineCount (s : String) (lines : List String) : Nat :=
  lines.count s

/-- The circuit statement with `show_id` set differs from its counterpart
without only by the auxiliary `xlabel` annotation (or not at all). -/
def XlabelAnnotates (a b : String) : Prop :=
  a = b ∨ ∃ p x, b = p ++ "];" ∧ a = p ++ ",xlabel=\"" ++ x ++ "\"];"

/-- The vtree statement with `show_id` set differs from its counterpart
without only by the auxiliary `headlabel` edge annotation or the position
label on a point node (or not at all). -/
def VtreeAnnotates (a b : String) : Prop :=
  a = b
  ∨ (∃ p x, b = p ++ "];" ∧ a = p ++ ",headclip=true,headlabel=\"" ++ x ++ "\"];")
  ∨ (∃ p x, b = p ++ " [shape=\"point\"];" ∧ a = p ++ " [label=\"" ++ x ++ "\",shape=\"point\"];")

/-- Shared True terminal. -/
def nTrue : SddNode := .tru 1 none

/-- Shared False terminal. -/
def nFalse : SddNode := .fls 0 none

/-- x3 ∨ ¬x3 (⊤ smoothed over variable 3). -/
def nTop3 : SddNode :=
  .dec 13 (.cons (.lit 6 3 none) nTrue (.cons (.lit 7 (-3) none) nTrue .nil)) none

/-- x2 ∨ x3, smooth over variables 2 and 3. -/
def nOr23 : SddNode :=
  .dec 11 (.cons (.lit 4 2 none) nTop3 (.cons (.lit 5 (-2) none) (.lit 6 3 none) .nil)) none

/-- x2 ∧ x3, smooth over variables 2 and 3. -/
def nAnd23 : SddNode :=
  .dec 12 (.cons (.lit 4 2 none) (.lit 6 3 none) (.cons (.lit 5 (-2) none) nFalse .nil)) none

/-- A smooth three-variable circuit for (x1 ∧ (x2 ∨ x3)) ∨ (¬x1 ∧ x2 ∧ x3),
i.e. at-least-two-of-three. -/
def rootMaj : SddNode :=
  .dec 14 (.cons (.lit 2 1 none) nOr23 (.cons (.lit 3 (-1) none) nAnd23 .nil)) none

/-- x2 smoothed over variables 2 and 3. -/
def nX2s : SddNode :=
  .dec 21 (.cons (.lit 4 2 none) nTop3 (.cons (.lit 5 (-2) none) nFalse .nil)) none

/-- x3 smoothed over variables 2 and 3. -/
def nX3s : SddNode :=
  .dec 22 (.cons (.lit 4 2 none) (.lit 6 3 none) (.cons (.lit 5 (-2) none) (.lit 6 3 none) .nil)) none

/-- A smooth three-variable circuit for (x1 ∧ x2) ∨ (¬x1 ∧ x3), the Boolean
function named by the spec's concrete scenario A. -/
def rootClaimed : SddNode :=
  .dec 23 (.cons (.lit 2 1 none) nX2s (.cons (.lit 3 (-1) none) nX3s .nil)) none

/-- The full weight mapping of the reference scenario:
+3 ↦ 0.5, +2 ↦ 0.5, +1 ↦ 1, -3 ↦ 0.5, -2 ↦ 0.5, -1 ↦ 1. -/
def weightsA : Int → Option ℚ := fun l =>
  if l = 3 then some (1/2) else if l = 2 then some (1/2) else if l = 1 then some 1
  else if l = -3 then some (1/2) else if l = -2 then some (1/2) else if l = -1 then some 1
  else none

/-- The reduced weight mapping: as `weightsA` but -1 ↦ 0. -/
def weightsB : Int → Option ℚ := fun l =>
  if l = 3 then some (1/2) else if l = 2 then some (1/2) else if l = 1 then some 1
  else if l = -3 then some (1/2) else if l = -2 then some (1/2) else if l = -1 then some 0
  else none

/-- (x1 ∧ True) ∨ (¬x1 ∧ x2): pairwise exclusive and exhaustive (hence
well-formed in the spec's §3 sense) but not smooth. -/
def cexNode : SddNode :=
  .dec 30 (.cons (.lit 2 1 none) nTrue (.cons (.lit 3 (-1) none) (.lit 4 2 none) .nil)) none

/-- The all-ones (unweighted counting) weight assignment over ℚ. -/
def onesW : Int → ℚ := fun _ => 1

/-- A shared literal child used to build a fan-in-2 DAG. -/
def sharedChild : SddNode := .lit 3 3 none

/-- A decision node whose two elements both reference `sharedChild`:
fan-in 2 on node id 3. -/
def fanIn2 : SddNode :=
  .dec 10 (.cons (.lit 4 2 none) sharedChild (.cons (.lit 5 (-2) none) sharedChild .nil)) none

/-- The statement list produced by exporting `fanIn2` (checked below by the
traversal itself). -/
def fanLines : List String :=
  ["10 [shape=circle,label=\"+\"];",
   "ps_10_0 [shape=circle, label=\"×\"];",
   "10 -> ps_10_0 [arrowhead=none];",
   "ps_10_0 -> 4;",
   "ps_10_0 -> 3;",
   "4 [shape=rectangle,label=\"2\"];",
   "3 [shape=rectangle,label=\"3\"];",
   "ps_10_1 [shape=circle, label=\"×\"];",
   "10 -> ps_10_1 [arrowhead=none];",
   "ps_10_1 -> 5;",
   "ps_10_1 -> 3;",
   "5 [shape=rectangle,label=\"-2\"];"]

/-- The visited set after exporting `fanIn2`. -/
def fanVisited : List Nat := [5, 3, 4, 10]

/-- Decimal value of a digit character. -/
def digitVal (c : Char) : Nat := c.toNat - 48

/-- Decimal value of a digit string. -/
def listVal (cs : List Char) : Nat := cs.foldl (fun a c => 10 * a + digitVal c) 0

/-- Bookkeeping invariant of one traversal call: the visited set only grows,
ids already visited on entry get no declaration, every id is declared at
most once, and a declared id is visited on exit. -/
def CountsOk (vis vis' : List Nat) (lines : List String) : Prop :=
  (∀ i, i ∈ vis → i ∈ vis')
  ∧ (∀ i, i ∈ vis → declCount i lines = 0)
  ∧ (∀ i, declCount i lines ≤ 1)
  ∧ (∀ i, 1 ≤ declCount i lines → i ∈ vis')

/-- Bookkeeping invariant for product-node declarations: product nodes of an
id visited on entry are not re-declared, each product node is declared at
most once, and a declared product node's decision id is visited on exit. -/
def PsOk (vis vis' : List Nat) (lines : List String) : Prop :=
  (∀ d k, d ∈ vis → lineCount (psDeclLine d k) lines = 0)
  ∧ (∀ d k, lineCount (psDeclLine d k) lines ≤ 1)
  ∧ (∀ d k, 1 ≤ lineCount (psDeclLine d k) lines → d ∈ vis')

/-! Toolkit: the decimal rendering `toString (n : Nat)` consists of digit
characters only, is nonempty, and is injective; strings built as
digits-separator-rest therefore split unambiguously. -/

theorem foldl_shift (cs : List Char) (s : Nat) :
    cs.foldl (fun a c => 10 * a + digitVal c) s
      = s * 10 ^ cs.length + cs.foldl (fun a c => 10 * a + digitVal c) 0 := by
  induction cs generalizing s with
  | nil => simp
  | cons c cs ih =>
    simp only [List.foldl_cons, List.length_cons]
    rw [ih (10 * s + digitVal c), ih (10 * 0 + digitVal c)]
    ring

theorem digitVal_digitChar (m : Nat) (h : m < 10) : digitVal (Nat.digitChar m) = m := by
  interval_cases m <;> decide

theorem digitChar_isDigit (m : Nat) (h : m < 10) : (Nat.digitChar m).isDigit = true := by
  interval_cases m <;> decide

theorem listVal_cons (c : Char) (cs : List Char) :
    listVal (c :: cs) = digitVal c * 10 ^ cs.length + listVal cs := by
  simp only [listVal, List.foldl_cons]
  rw [foldl_shift cs (10 * 0 + digitVal c)]
  ring_nf

theorem toDigitsCore_val (fuel n : Nat) (acc : List Char) (h : n < fuel) :
    listVal (Nat.toDigitsCore 10 fuel n acc) = n * 10 ^ acc.length + listVal acc := by
  induction fuel generalizing n acc with
  | zero => omega
  | succ f ih =>
    simp only [Nat.toDigitsCore]
    by_cases h0 : n / 10 = 0
    · simp only [h0, if_true]
      rw [listVal_cons, digitVal_digitChar _ (Nat.mod_lt _ (by norm_num))]
      have hn : n % 10 = n := Nat.mod_eq_of_lt (by omega)
      rw [hn]
    · simp only [h0, if_false]
      rw [ih (n / 10) _ (by omega)]
      rw [listVal_cons, digitVal_digitChar _ (Nat.mod_lt _ (by norm_num))]
      simp only [List.length_cons]
      obtain ⟨q, r, hr, rfl⟩ : ∃ q r, r < 10 ∧ n = 10 * q + r :=
        ⟨n / 10, n % 10, Nat.mod_lt _ (by norm_num), (Nat.div_add_mod n 10).symm⟩
      have hdiv : (10 * q + r) / 10 = q := by omega
      have hmod : (10 * q + r) % 10 = r := by omega
      rw [hdiv, hmod, pow_succ]
      ring

theorem toDigits_val (n : Nat) : listVal (Nat.toDigits 10 n) = n := by
  have := toDigitsCore_val (n + 1) n [] (by omega)
  simpa [Nat.toDigits, listVal] using this

theorem natStr_data (n : Nat) : (toString n).data = Nat.toDigits 10 n := rfl

theorem natStr_inj {m n : Nat} (h : (toString m).data = (toString n).data) : m = n := by
  rw [natStr_data, natStr_data] at h
  have hm := toDigits_val m
  rw [h, toDigits_val] at hm
  omega

theorem toDigitsCore_isDigit (fuel n : Nat) (acc : List Char)
    (hacc : ∀ c ∈ acc, c.isDigit = true) :
    ∀ c ∈ Nat.toDigitsCore 10 fuel n acc, c.isDigit = true := by
  induction fuel generalizing n acc with
  | zero => simpa [Nat.toDigitsCore] using hacc
  | succ f ih =>
    simp only [Nat.toDigitsCore]
    have hd : ∀ c ∈ (Nat.digitChar (n % 10) :: acc), c.isDigit = true := by
      intro c hc
      rcases List.mem_cons.1 hc with h | h
      · subst h; exact digitChar_isDigit _ (Nat.mod_lt _ (by norm_num))
      · exact hacc c h
    by_cases h0 : n / 10 = 0
    · simpa [h0] using hd
    · simpa [h0] using ih (n / 10) _ hd

theorem natStr_isDigit (n : Nat) : ∀ c ∈ (toString n).data, c.isDigit = true := by
  rw [natStr_data]
  exact toDigitsCore_isDigit (n + 1) n [] (by simp)

theorem toDigitsCore_length (fuel n : Nat) (acc : List Char) :
    acc.length ≤ (Nat.toDigitsCore 10 fuel n acc).length := by
  induction fuel generalizing n acc with
  | zero => simp [Nat.toDigitsCore]
  | succ f ih =>
    simp only [Nat.toDigitsCore]
    by_cases h0 : n / 10 = 0
    · simp [h0]
    · simp only [h0, if_false]
      calc acc.length ≤ (Nat.digitChar (n % 10) :: acc).length := by simp
        _ ≤ _ := ih (n / 10) _

theorem natStr_ne_nil (n : Nat) : (toString n).data ≠ [] := by
  rw [natStr_data]
  show Nat.toDigits 10 n ≠ []
  simp only [Nat.toDigits, Nat.toDigitsCore]
  by_cases h0 : n / 10 = 0
  · simp [h0]
  · simp only [h0, if_false]
    intro h
    have := toDigitsCore_length n (n / 10) [Nat.digitChar (n % 10)]
    rw [h] at this
    simp at this

theorem sep_split_eq {sep : Char} {A B t u : List Char}
    (hA : ∀ c ∈ A, c.isDigit = true) (hB : ∀ c ∈ B, c.isDigit = true)
    (hsep : sep.isDigit = false) (h : A ++ sep :: t = B ++ sep :: u) :
    A = B ∧ t = u := by
  induction A generalizing B with
  | nil =>
    cases B with
    | nil => simpa using h
    | cons b B' =>
      exfalso
      simp only [List.nil_append, List.cons_append, List.cons.injEq] at h
      have := hB b (by simp)
      rw [← h.1] at this
      rw [hsep] at this
      exact Bool.false_ne_true this
  | cons a A' ih =>
    cases B with
    | nil =>
      exfalso
      simp only [List.nil_append, List.cons_append, List.cons.injEq] at h
      have := hA a (by simp)
      rw [h.1, hsep] at this
      exact Bool.false_ne_true this
    | cons b B' =>
      simp only [List.cons_append, List.cons.injEq] at h
      obtain ⟨h1, h2⟩ := h
      obtain ⟨h3, h4⟩ := ih (fun c hc => hA c (by simp [hc])) (fun c hc => hB c (by simp [hc])) h2
      exact ⟨by rw [h1, h3], h4⟩

theorem sep_split_pfx {sep : Char} {A B t u : List Char}
    (hA : ∀ c ∈ A, c.isDigit = true) (hB : ∀ c ∈ B, c.isDigit = true)
    (hsep : sep.isDigit = false) (h : (A ++ sep :: t) <+: (B ++ sep :: u)) :
    A = B ∧ t <+: u := by
  induction A generalizing B with
  | nil =>
    cases B with
    | nil =>
      refine ⟨rfl, ?_⟩
      simp only [List.nil_append] at h
      exact (List.cons_prefix_cons.1 h).2
    | cons b B' =>
      exfalso
      simp only [List.nil_append, List.cons_append] at h
      have h1 := (List.cons_prefix_cons.1 h).1
      have := hB b (by simp)
      rw [← h1, hsep] at this
      exact Bool.false_ne_true this
  | cons a A' ih =>
    cases B with
    | nil =>
      exfalso
      simp only [List.nil_append, List.cons_append] at h
      have h1 := (List.cons_prefix_cons.1 h).1
      have := hA a (by simp)
      rw [h1, hsep] at this
      exact Bool.false_ne_true this
    | cons b B' =>
      simp only [List.cons_append] at h
      obtain ⟨h1, h2⟩ := List.cons_prefix_cons.1 h
      obtain ⟨h3, h4⟩ := ih (fun c hc => hA c (by simp [hc])) (fun c hc => hB c (by simp [hc])) h2
      exact ⟨by rw [h1, h3], h4⟩

/-! Toolkit: classification of the emitted DOT statements — which statements
declare which node id, and distinctness of the product-node declarations. -/

theorem prefix_append_both {l l1 l2 : List Char} (h : l1 <+: l2) : l ++ l1 <+: l ++ l2 := by
  obtain ⟨w, rfl⟩ := h
  exact ⟨w, by simp⟩

theorem natStr_sp_data (i : Nat) :
    (toString i ++ " [").data = (toString i).data ++ ' ' :: '[' :: [] := by
  simp [String.data_append]

theorem rect_data (n : SddNode) (lm : Option (List (LabelKey × String))) (si : Bool) :
    ∃ r, (rectangleLine n lm si).data = (toString n.id).data ++ ' ' :: '[' :: r := by
  refine ⟨(("shape=rectangle,label=\"" ++ format_sddnode_label n none lm ++ "\""
    ++ (if si then ",xlabel=\"" ++ format_sddnode_xlabel n ++ "\"" else "") ++ "];") : String).data, ?_⟩
  simp only [rectangleLine, String.data_append]
  have h1 : (" [shape=rectangle,label=\"" : String).data
      = ' ' :: '[' :: ("shape=rectangle,label=\"" : String).data := rfl
  simp [h1, String.data_append, List.append_assoc]

theorem circle_data (n : SddNode) (lm : Option (List (LabelKey × String))) (si : Bool) :
    ∃ r, (circleLine n lm si).data = (toString n.id).data ++ ' ' :: '[' :: r := by
  refine ⟨(("shape=circle,label=\"" ++ format_sddnode_label n (some (.str "+")) lm ++ "\""
    ++ (if si then ",xlabel=\"" ++ format_sddnode_xlabel n ++ "\"" else "") ++ "];") : String).data, ?_⟩
  simp only [circleLine, String.data_append]
  have h1 : (" [shape=circle,label=\"" : String).data
      = ' ' :: '[' :: ("shape=circle,label=\"" : String).data := rfl
  simp [h1, String.data_append, List.append_assoc]

theorem decToPs_data (d k : Nat) :
    ∃ r, (decToPsLine d k).data = (toString d).data ++ ' ' :: '-' :: r := by
  refine ⟨("> " ++ psId d k ++ " [arrowhead=none];" : String).data, ?_⟩
  simp only [decToPsLine, String.data_append]
  have h1 : (" -> " : String).data = ' ' :: '-' :: ("> " : String).data := rfl
  simp [h1, String.data_append, List.append_assoc]

theorem psDecl_data (d k : Nat) :
    (psDeclLine d k).data = 'p' :: 's' :: '_' ::
      ((toString d).data ++ '_' ::
        ((toString k).data ++ ' ' :: '[' :: ("shape=circle, label=\"×\"];" : String).data)) := by
  simp only [psDeclLine, psId, String.data_append]
  have h1 : ("ps_" : String).data = 'p' :: 's' :: '_' :: [] := rfl
  have h2 : ("_" : String).data = '_' :: [] := rfl
  have h3 : (" [shape=circle, label=\"×\"];" : String).data
      = ' ' :: '[' :: ("shape=circle, label=\"×\"];" : String).data := rfl
  simp [h1, h2, h3, List.append_assoc]

theorem psToChild_data (d k c : Nat) :
    (psToChildLine d k c).data = 'p' :: 's' :: '_' ::
      ((toString d).data ++ '_' ::
        ((toString k).data ++ ' ' :: '-' :: ("> " ++ toString c ++ ";" : String).data)) := by
  simp only [psToChildLine, psId, String.data_append]
  have h1 : ("ps_" : String).data = 'p' :: 's' :: '_' :: [] := rfl
  have h2 : ("_" : String).data = '_' :: [] := rfl
  have h3 : (" -> " : String).data = ' ' :: '-' :: ("> " : String).data := rfl
  simp [h1, h2, h3, String.data_append, List.append_assoc]

theorem declHit_of_digitline {i n : Nat} {line : String} {r : List Char}
    (hd : line.data = (toString n).data ++ ' ' :: '[' :: r) :
    declHit i line = true ↔ i = n := by
  constructor
  · intro h
    rw [declHit, List.isPrefixOf_iff_prefix, hd, natStr_sp_data] at h
    exact natStr_inj (sep_split_pfx (natStr_isDigit i) (natStr_isDigit n) (by decide) h).1
  · rintro rfl
    rw [declHit, List.isPrefixOf_iff_prefix, hd, natStr_sp_data]
    exact prefix_append_both ⟨r, rfl⟩

theorem declHit_rect (i : Nat) (n : SddNode) (lm : Option (List (LabelKey × String))) (si : Bool) :
    declHit i (rectangleLine n lm si) = true ↔ i = n.id := by
  obtain ⟨r, hr⟩ := rect_data n lm si
  exact declHit_of_digitline hr

theorem declHit_circle (i : Nat) (n : SddNode) (lm : Option (List (LabelKey × String))) (si : Bool) :
    declHit i (circleLine n lm si) = true ↔ i = n.id := by
  obtain ⟨r, hr⟩ := circle_data n lm si
  exact declHit_of_digitline hr

theorem declHit_decToPs (i d k : Nat) : declHit i (decToPsLine d k) = false := by
  obtain ⟨r, hr⟩ := decToPs_data d k
  apply Bool.eq_false_iff.2
  intro h
  rw [declHit, List.isPrefixOf_iff_prefix, hr, natStr_sp_data] at h
  have h2 := (sep_split_pfx (natStr_isDigit i) (natStr_isDigit d) (by decide) h).2
  have h3 := (List.cons_prefix_cons.1 h2).1
  exact absurd h3 (by decide)

theorem declHit_headp {i : Nat} {line : String} {r : List Char}
    (hd : line.data = 'p' :: r) : declHit i line = false := by
  apply Bool.eq_false_iff.2
  intro h
  rw [declHit, List.isPrefixOf_iff_prefix, natStr_sp_data, hd] at h
  cases hA : (toString i).data with
  | nil => exact natStr_ne_nil i hA
  | cons c cs =>
    rw [hA] at h
    simp only [List.cons_append] at h
    have hc := (List.cons_prefix_cons.1 h).1
    have hdig := natStr_isDigit i c (by rw [hA]; simp)
    rw [hc] at hdig
    exact absurd hdig (by decide)

theorem declHit_psDecl (i d k : Nat) : declHit i (psDeclLine d k) = false :=
  declHit_headp (psDecl_data d k)

theorem declHit_psToChild (i d k c : Nat) : declHit i (psToChildLine d k c) = false :=
  declHit_headp (psToChild_data d k c)

theorem psDecl_inj {d k e m : Nat} (h : psDeclLine d k = psDeclLine e m) : d = e ∧ k = m := by
  have hd := congrArg String.data h
  rw [psDecl_data, psDecl_data] at hd
  simp only [List.cons.injEq, true_and] at hd
  obtain ⟨h1, h2⟩ := sep_split_eq (natStr_isDigit d) (natStr_isDigit e) (by decide) hd
  obtain ⟨h3, _⟩ := sep_split_eq (natStr_isDigit k) (natStr_isDigit m) (by decide) h2
  exact ⟨natStr_inj h1, natStr_inj h3⟩

theorem psDecl_ne_psToChild (d k e m c : Nat) : psDeclLine d k ≠ psToChildLine e m c := by
  intro h
  have hd := congrArg String.data h
  rw [psDecl_data, psToChild_data] at hd
  simp only [List.cons.injEq, true_and] at hd
  obtain ⟨_, h2⟩ := sep_split_eq (natStr_isDigit d) (natStr_isDigit e) (by decide) hd
  obtain ⟨_, h3⟩ := sep_split_eq (natStr_isDigit k) (natStr_isDigit m) (by decide) h2
  exact absurd (List.cons.inj h3).1 (by decide)

theorem headp_ne_digitline {x y : String} {n : Nat} {s r : List Char}
    (hx : x.data = 'p' :: s) (hy : y.data = (toString n).data ++ r) : x ≠ y := by
  intro h
  subst h
  rw [hx] at hy
  cases hA : (toString n).data with
  | nil => exact natStr_ne_nil n hA
  | cons c cs =>
    rw [hA] at hy
    simp only [List.cons_append, List.cons.injEq] at hy
    have hdig := natStr_isDigit n c (by rw [hA]; simp)
    rw [← hy.1] at hdig
    exact absurd hdig (by decide)

theorem psDecl_ne_rect (d k : Nat) (n : SddNode) (lm : Option (List (LabelKey × String)))
    (si : Bool) : psDeclLine d k ≠ rectangleLine n lm si := by
  obtain ⟨r, hr⟩ := rect_data n lm si
  exact headp_ne_digitline (psDecl_data d k) hr

theorem psDecl_ne_circle (d k : Nat) (n : SddNode) (lm : Option (List (LabelKey × String)))
    (si : Bool) : psDeclLine d k ≠ circleLine n lm si := by
  obtain ⟨r, hr⟩ := circle_data n lm si
  exact headp_ne_digitline (psDecl_data d k) hr

theorem psDecl_ne_decToPs (d k e m : Nat) : psDeclLine d k ≠ decToPsLine e m := by
  obtain ⟨r, hr⟩ := decToPs_data e m
  exact headp_ne_digitline (psDecl_data d k) hr

end PySDD

namespace PySDD

theorem toDotInt_mem {node : SddNode} {vis : List Nat}
    {lm : Option (List (LabelKey × String))} {si : Bool} (h : node.id ∈ vis) :
    sddnode_to_dot_int node vis lm si = some ([], vis) := by
  rw [sddnode_to_dot_int]
  simp [h]

theorem toDotInt_leaf_fresh {node : SddNode} {vis : List Nat}
    {lm : Option (List (LabelKey × String))} {si : Bool} (h : node.id ∉ vis)
    (hl : (node.isFalseN || node.isTrueN || node.isLiteralN) = true) :
    sddnode_to_dot_int node vis lm si = some ([rectangleLine node lm si], node.id :: vis) := by
  rw [sddnode_to_dot_int]
  simp [h, hl]

theorem toDotInt_dec_fresh {nid : Nat} {es : SddElems} {vp : Option Nat} {vis : List Nat}
    {lm : Option (List (LabelKey × String))} {si : Bool} (h : nid ∉ vis) :
    sddnode_to_dot_int (.dec nid es vp) vis lm si =
      match sddelems_to_dot_int nid es 0 (nid :: vis) lm si with
      | some (s, v2) => some (circleLine (.dec nid es vp) lm si :: s, v2)
      | none => none := by
  have hid : SddNode.id (.dec nid es vp) = nid := rfl
  rw [sddnode_to_dot_int]
  simp [hid, h, SddNode.isFalseN, SddNode.isTrueN, SddNode.isLiteralN]

theorem elemsInt_nil {nid idx : Nat} {vis : List Nat}
    {lm : Option (List (LabelKey × String))} {si : Bool} :
    sddelems_to_dot_int nid .nil idx vis lm si = some ([], vis) := by
  rw [sddelems_to_dot_int]

end PySDD

namespace PySDD



theorem declCount_nil (i : Nat) : declCount i [] = 0 := rfl

theorem declCount_append (i : Nat) (a b : List String) :
    declCount i (a ++ b) = declCount i a + declCount i b :=
  List.countP_append _ a b

theorem declCount_cons_hit {i : Nat} {l : String} (b : List String)
    (h : declHit i l = true) : declCount i (l :: b) = declCount i b + 1 :=
  List.countP_cons_of_pos _ _ h

theorem declCount_cons_miss {i : Nat} {l : String} (b : List String)
    (h : declHit i l = false) : declCount i (l :: b) = declCount i b :=
  List.countP_cons_of_neg _ _ (by simp [h])

theorem lineCount_nil (s : String) : lineCount s [] = 0 := rfl

theorem lineCount_append (s : String) (a b : List String) :
    lineCount s (a ++ b) = lineCount s a + lineCount s b :=
  List.count_append _ a b

theorem lineCount_cons_eq {s l : String} (b : List String) (h : l = s) :
    lineCount s (l :: b) = lineCount s b + 1 := by
  simp [lineCount, List.count_cons, h]

theorem lineCount_cons_ne {s l : String} (b : List String) (h : l ≠ s) :
    lineCount s (l :: b) = lineCount s b := by
  simp [lineCount, List.count_cons, h]

theorem declCount_block (i nid idx pid sid : Nat) :
    declCount i [psDeclLine nid idx, decToPsLine nid idx,
      psToChildLine nid idx pid, psToChildLine nid idx sid] = 0 := by
  rw [declCount_cons_miss _ (declHit_psDecl i nid idx),
    declCount_cons_miss _ (declHit_decToPs i nid idx),
    declCount_cons_miss _ (declHit_psToChild i nid idx pid),
    declCount_cons_miss _ (declHit_psToChild i nid idx sid),
    declCount_nil]

theorem lineCount_block (d k nid idx pid sid : Nat) :
    lineCount (psDeclLine d k) [psDeclLine nid idx, decToPsLine nid idx,
      psToChildLine nid idx pid, psToChildLine nid idx sid]
      = if d = nid ∧ k = idx then 1 else 0 := by
  have e2 : lineCount (psDeclLine d k) [decToPsLine nid idx,
      psToChildLine nid idx pid, psToChildLine nid idx sid] = 0 := by
    rw [lineCount_cons_ne _ (Ne.symm (psDecl_ne_decToPs d k nid idx)),
      lineCount_cons_ne _ (Ne.symm (psDecl_ne_psToChild d k nid idx pid)),
      lineCount_cons_ne _ (Ne.symm (psDecl_ne_psToChild d k nid idx sid)),
      lineCount_nil]
  by_cases h : d = nid ∧ k = idx
  · obtain ⟨h1, h2⟩ := h
    subst h1
    subst h2
    rw [lineCount_cons_eq _ rfl, e2, if_pos ⟨rfl, rfl⟩]
  · have hne : psDeclLine nid idx ≠ psDeclLine d k := by
      intro he
      obtain ⟨h1, h2⟩ := psDecl_inj he
      exact h ⟨h1.symm, h2.symm⟩
    rw [lineCount_cons_ne _ hne, e2, if_neg h]

theorem declHit_circle_false {i : Nat} {n : SddNode}
    {lm : Option (List (LabelKey × String))} {si : Bool} (h : i ≠ n.id) :
    declHit i (circleLine n lm si) = false := by
  apply Bool.eq_false_iff.2
  intro hc
  exact h ((declHit_circle i n lm si).1 hc)

theorem declHit_rect_false {i : Nat} {n : SddNode}
    {lm : Option (List (LabelKey × String))} {si : Bool} (h : i ≠ n.id) :
    declHit i (rectangleLine n lm si) = false := by
  apply Bool.eq_false_iff.2
  intro hc
  exact h ((declHit_rect i n lm si).1 hc)

theorem master_leaf {node : SddNode} {vis : List Nat}
    {lm : Option (List (LabelKey × String))} {si : Bool} (hv : node.id ∉ vis)
    (hl : (node.isFalseN || node.isTrueN || node.isLiteralN) = true) :
    ∃ lines vis', sddnode_to_dot_int node vis lm si = some (lines, vis')
      ∧ node.id ∈ vis' ∧ CountsOk vis vis' lines ∧ PsOk vis vis' lines := by
  refine ⟨[rectangleLine node lm si], node.id :: vis, toDotInt_leaf_fresh hv hl, by simp, ?_, ?_⟩
  · refine ⟨fun i hi => by simp [hi], ?_, ?_, ?_⟩
    · intro i hi
      have hne : i ≠ node.id := fun he => hv (he ▸ hi)
      rw [declCount_cons_miss _ (declHit_rect_false hne), declCount_nil]
    · intro i
      by_cases hieq : i = node.id
      · rw [declCount_cons_hit _ ((declHit_rect i node lm si).2 hieq), declCount_nil]
      · rw [declCount_cons_miss _ (declHit_rect_false hieq), declCount_nil]
        omega
    · intro i hi
      by_cases hieq : i = node.id
      · simp [hieq]
      · rw [declCount_cons_miss _ (declHit_rect_false hieq), declCount_nil] at hi
        omega
  · refine ⟨?_, ?_, ?_⟩
    · intro d k _
      rw [lineCount_cons_ne _ (Ne.symm (psDecl_ne_rect d k node lm si)), lineCount_nil]
    · intro d k
      rw [lineCount_cons_ne _ (Ne.symm (psDecl_ne_rect d k node lm si)), lineCount_nil]
      omega
    · intro d k hd
      rw [lineCount_cons_ne _ (Ne.symm (psDecl_ne_rect d k node lm si)), lineCount_nil] at hd
      omega

mutual
theorem master_node : ∀ (node : SddNode) (vis : List Nat)
    (lm : Option (List (LabelKey × String))) (si : Bool),
    ∃ lines vis', sddnode_to_dot_int node vis lm si = some (lines, vis')
      ∧ node.id ∈ vis' ∧ CountsOk vis vis' lines ∧ PsOk vis vis' lines
| node, vis, lm, si => by
  by_cases hv : node.id ∈ vis
  · refine ⟨[], vis, toDotInt_mem hv, hv, ?_, ?_⟩
    · exact ⟨fun i hi => hi, fun i _ => rfl, fun i => by simp [declCount_nil],
        fun i h => by simp [declCount_nil] at h⟩
    · exact ⟨fun d k _ => rfl, fun d k => by simp [lineCount_nil],
        fun d k h => by simp [lineCount_nil] at h⟩
  · cases node with
    | fls i vp => exact master_leaf hv (by rfl)
    | tru i vp => exact master_leaf hv (by rfl)
    | lit i l vp => exact master_leaf hv (by rfl)
    | dec nid es vp =>
      have hv' : nid ∉ vis := hv
      have hmem : nid ∈ nid :: vis := by simp
      obtain ⟨s, v2, hs, hco, hps0, hpsf, hps1, hps2⟩ :=
        master_elems nid es 0 (nid :: vis) lm si hmem
      obtain ⟨hm, hz, ho, hin⟩ := hco
      have hidd : SddNode.id (.dec nid es vp) = nid := rfl
      refine ⟨circleLine (.dec nid es vp) lm si :: s, v2, ?_, ?_, ?_, ?_⟩
      · rw [toDotInt_dec_fresh hv', hs]
      · rw [hidd]
        exact hm nid hmem
      · refine ⟨fun i hi => hm i (by simp [hi]), ?_, ?_, ?_⟩
        · intro i hi
          have hne : i ≠ SddNode.id (.dec nid es vp) := by
            rw [hidd]
            exact fun he => hv' (he ▸ hi)
          rw [declCount_cons_miss _ (declHit_circle_false hne)]
          exact hz i (by simp [hi])
        · intro i
          by_cases hieq : i = SddNode.id (.dec nid es vp)
          · rw [declCount_cons_hit _ ((declHit_circle i _ lm si).2 hieq)]
            have h0 := hz i (by rw [hieq, hidd]; simp)
            omega
          · rw [declCount_cons_miss _ (declHit_circle_false hieq)]
            exact ho i
        · intro i hi
          by_cases hieq : i = SddNode.id (.dec nid es vp)
          · rw [hieq, hidd]
            exact hm nid hmem
          · rw [declCount_cons_miss _ (declHit_circle_false hieq)] at hi
            exact hin i hi
      · refine ⟨?_, ?_, ?_⟩
        · intro d k hd
          have hdne : d ≠ nid := fun he => hv' (he ▸ hd)
          rw [lineCount_cons_ne _ (Ne.symm (psDecl_ne_circle d k _ lm si))]
          exact hps0 d k (by simp [hd]) hdne
        · intro d k
          rw [lineCount_cons_ne _ (Ne.symm (psDecl_ne_circle d k _ lm si))]
          exact hps1 d k
        · intro d k hd
          rw [lineCount_cons_ne _ (Ne.symm (psDecl_ne_circle d k _ lm si))] at hd
          exact hps2 d k hd

theorem master_elems : ∀ (nid : Nat) (es : SddElems) (idx : Nat) (vis : List Nat)
    (lm : Option (List (LabelKey × String))) (si : Bool), nid ∈ vis →
    ∃ lines vis', sddelems_to_dot_int nid es idx vis lm si = some (lines, vis')
      ∧ CountsOk vis vis' lines
      ∧ (∀ d k, d ∈ vis → d ≠ nid → lineCount (psDeclLine d k) lines = 0)
      ∧ (∀ k, lineCount (psDeclLine nid k) lines
          = if idx ≤ k ∧ k < idx + es.length then 1 else 0)
      ∧ (∀ d k, lineCount (psDeclLine d k) lines ≤ 1)
      ∧ (∀ d k, 1 ≤ lineCount (psDeclLine d k) lines → d ∈ vis')
| nid, .nil, idx, vis, lm, si, hnid => by
  refine ⟨[], vis, elemsInt_nil, ?_, ?_, ?_, ?_, ?_⟩
  · exact ⟨fun i hi => hi, fun i _ => rfl, fun i => by simp [declCount_nil],
      fun i h => by simp [declCount_nil] at h⟩
  · intro d k _ _
    rfl
  · intro k
    rw [lineCount_nil]
    have hno : ¬(idx ≤ k ∧ k < idx + SddElems.length .nil) := by
      simp only [SddElems.length]
      omega
    rw [if_neg hno]
  · intro d k
    simp [lineCount_nil]
  · intro d k h
    simp [lineCount_nil] at h
| nid, .cons p s rest, idx, vis, lm, si, hnid => by
  obtain ⟨sp, v1, hsp, _, hcop, hpsp⟩ := master_node p vis lm si
  obtain ⟨ss, v2, hss, _, hcos, hpss⟩ := master_node s v1 lm si
  have hnid1 : nid ∈ v1 := hcop.1 nid hnid
  have hnid2 : nid ∈ v2 := hcos.1 nid hnid1
  obtain ⟨sr, v3, hsr, hcor, hr0, hrf, hr1, hr2⟩ :=
    master_elems nid rest (idx + 1) v2 lm si hnid2
  have hres : sddelems_to_dot_int nid (.cons p s rest) idx vis lm si
      = some ([psDeclLine nid idx, decToPsLine nid idx,
          psToChildLine nid idx p.id, psToChildLine nid idx s.id] ++ sp ++ ss ++ sr, v3) := by
    rw [sddelems_to_dot_int]
    simp only [hsp, hss, hsr]
  have hmono1 : ∀ i, i ∈ vis → i ∈ v1 := hcop.1
  have hmono2 : ∀ i, i ∈ v1 → i ∈ v2 := hcos.1
  have hmono3 : ∀ i, i ∈ v2 → i ∈ v3 := hcor.1
  refine ⟨_, v3, hres, ?_, ?_, ?_, ?_, ?_⟩
  · refine ⟨fun i hi => hmono3 i (hmono2 i (hmono1 i hi)), ?_, ?_, ?_⟩
    · intro i hi
      rw [declCount_append, declCount_append, declCount_append, declCount_block]
      rw [hcop.2.1 i hi, hcos.2.1 i (hmono1 i hi), hcor.2.1 i (hmono2 i (hmono1 i hi))]
    · intro i
      rw [declCount_append, declCount_append, declCount_append, declCount_block]
      have ha1 := hcop.2.2.1 i
      have hb1 := hcos.2.2.1 i
      have hc1 := hcor.2.2.1 i
      have hab : 1 ≤ declCount i sp → declCount i ss = 0 :=
        fun h => hcos.2.1 i (hcop.2.2.2 i h)
      have hac : 1 ≤ declCount i sp → declCount i sr = 0 :=
        fun h => hcor.2.1 i (hmono2 i (hcop.2.2.2 i h))
      have hbc : 1 ≤ declCount i ss → declCount i sr = 0 :=
        fun h => hcor.2.1 i (hcos.2.2.2 i h)
      omega
    · intro i hi
      rw [declCount_append, declCount_append, declCount_append, declCount_block] at hi
      by_cases hA : 1 ≤ declCount i sp
      · exact hmono3 i (hmono2 i (hcop.2.2.2 i hA))
      · by_cases hB : 1 ≤ declCount i ss
        · exact hmono3 i (hcos.2.2.2 i hB)
        · exact hcor.2.2.2 i (by omega)
  · intro d k hd hdne
    rw [lineCount_append, lineCount_append, lineCount_append, lineCount_block]
    rw [if_neg (fun hc => hdne hc.1)]
    rw [hpsp.1 d k hd, hpss.1 d k (hmono1 d hd), hr0 d k (hmono2 d (hmono1 d hd)) hdne]
  · intro k
    rw [lineCount_append, lineCount_append, lineCount_append, lineCount_block]
    rw [hpsp.1 nid k hnid, hpss.1 nid k hnid1, hrf k]
    have hlen : SddElems.length (.cons p s rest) = rest.length + 1 := rfl
    rw [hlen]
    split_ifs <;> omega
  · intro d k
    rw [lineCount_append, lineCount_append, lineCount_append, lineCount_block]
    by_cases hdn : d = nid
    · subst hdn
      rw [hpsp.1 d k hnid, hpss.1 d k hnid1, hrf k]
      split_ifs <;> omega
    · rw [if_neg (fun hc => hdn hc.1)]
      have ha1 := hpsp.2.1 d k
      have hb1 := hpss.2.1 d k
      have hc1 := hr1 d k
      have hab : 1 ≤ lineCount (psDeclLine d k) sp → lineCount (psDeclLine d k) ss = 0 :=
        fun h => hpss.1 d k (hpsp.2.2 d k h)
      have hac : 1 ≤ lineCount (psDeclLine d k) sp → lineCount (psDeclLine d k) sr = 0 :=
        fun h => hr0 d k (hmono2 d (hpsp.2.2 d k h)) hdn
      have hbc : 1 ≤ lineCount (psDeclLine d k) ss → lineCount (psDeclLine d k) sr = 0 :=
        fun h => hr0 d k (hpss.2.2 d k h) hdn
      omega
  · intro d k hd
    rw [lineCount_append, lineCount_append, lineCount_append, lineCount_block] at hd
    by_cases hdn : d = nid
    · exact hdn ▸ hmono3 nid (hmono2 nid hnid1)
    · rw [if_neg (fun hc => hdn hc.1)] at hd
      by_cases hA : 1 ≤ lineCount (psDeclLine d k) sp
      · exact hmono3 d (hmono2 d (hpsp.2.2 d k hA))
      · by_cases hB : 1 ≤ lineCount (psDeclLine d k) ss
        · exact hmono3 d (hpss.2.2 d k hB)
        · exact hr2 d k (by omega)
end

end PySDD

namespace PySDD

theorem elems_edges : ∀ (nid : Nat) (es : SddElems) (idx : Nat) (vis : List Nat)
    (lm : Option (List (LabelKey × String))) (si : Bool) (lines : List String) (vis' : List Nat),
    sddelems_to_dot_int nid es idx vis lm si = some (lines, vis') →
    ∀ k p s, es.toList[k]? = some (p, s) →
      psDeclLine nid (idx + k) ∈ lines ∧ decToPsLine nid (idx + k) ∈ lines
      ∧ psToChildLine nid (idx + k) p.id ∈ lines ∧ psToChildLine nid (idx + k) s.id ∈ lines
| nid, .nil, idx, vis, lm, si, lines, vis' => by
  intro _ k p s hk
  simp [SddElems.toList] at hk
| nid, .cons p0 s0 rest, idx, vis, lm, si, lines, vis' => by
  intro h k p s hk
  rw [sddelems_to_dot_int] at h
  cases hsp : sddnode_to_dot_int p0 vis lm si with
  | none => simp [hsp] at h
  | some rp =>
    obtain ⟨sp, v1⟩ := rp
    cases hss : sddnode_to_dot_int s0 v1 lm si with
    | none => simp [hsp, hss] at h
    | some rs =>
      obtain ⟨ss, v2⟩ := rs
      cases hsr : sddelems_to_dot_int nid rest (idx + 1) v2 lm si with
      | none => simp [hsp, hss, hsr] at h
      | some rr =>
        obtain ⟨sr, v3⟩ := rr
        simp only [hsp, hss, hsr, Option.some.injEq, Prod.mk.injEq] at h
        obtain ⟨hlines, hv3⟩ := h
        cases k with
        | zero =>
          simp only [SddElems.toList, List.getElem?_cons_zero, Option.some.injEq,
            Prod.mk.injEq] at hk
          obtain ⟨hp, hs⟩ := hk
          subst hp
          subst hs
          rw [← hlines]
          refine ⟨?_, ?_, ?_, ?_⟩ <;> simp [Nat.add_zero]
        | succ k1 =>
          simp only [SddElems.toList, List.getElem?_cons_succ] at hk
          have hrec := elems_edges nid rest (idx + 1) v2 lm si sr v3 hsr k1 p s hk
          have harith : idx + (k1 + 1) = (idx + 1) + k1 := by omega
          rw [← hlines, harith]
          refine ⟨?_, ?_, ?_, ?_⟩ <;>
            simp [hrec.1, hrec.2.1, hrec.2.2.1, hrec.2.2.2]

end PySDD

namespace PySDD

theorem forall2_annot_refl (l : List String) : List.Forall₂ XlabelAnnotates l l :=
  List.forall₂_same.2 fun x _ => Or.inl rfl

theorem quote_semi : ("\"" : String) ++ "];" = "\"];" := rfl

theorem rect_annot (node : SddNode) (lm : Option (List (LabelKey × String))) :
    XlabelAnnotates (rectangleLine node lm true) (rectangleLine node lm false) := by
  right
  refine ⟨toString node.id ++ " [shape=rectangle,label=\""
      ++ format_sddnode_label node none lm ++ "\"", format_sddnode_xlabel node, ?_, ?_⟩
  · simp [rectangleLine, String.append_empty]
  · simp only [rectangleLine, if_pos, String.append_assoc]
    rw [quote_semi]

theorem circle_annot (node : SddNode) (lm : Option (List (LabelKey × String))) :
    XlabelAnnotates (circleLine node lm true) (circleLine node lm false) := by
  right
  refine ⟨toString node.id ++ " [shape=circle,label=\""
      ++ format_sddnode_label node (some (.str "+")) lm ++ "\"", format_sddnode_xlabel node, ?_, ?_⟩
  · simp [circleLine, String.append_empty]
  · simp only [circleLine, if_pos, String.append_assoc]
    rw [quote_semi]

mutual
theorem annot_node : ∀ (node : SddNode) (vis : List Nat)
    (lm : Option (List (LabelKey × String))),
    ∃ a b vis', sddnode_to_dot_int node vis lm true = some (a, vis')
      ∧ sddnode_to_dot_int node vis lm false = some (b, vis')
      ∧ List.Forall₂ XlabelAnnotates a b
| node, vis, lm => by
  by_cases hv : node.id ∈ vis
  · exact ⟨[], [], vis, toDotInt_mem hv, toDotInt_mem hv, List.Forall₂.nil⟩
  · cases node with
    | fls i vp =>
      exact ⟨_, _, _, toDotInt_leaf_fresh hv (by rfl), toDotInt_leaf_fresh hv (by rfl),
        List.Forall₂.cons (rect_annot _ lm) List.Forall₂.nil⟩
    | tru i vp =>
      exact ⟨_, _, _, toDotInt_leaf_fresh hv (by rfl), toDotInt_leaf_fresh hv (by rfl),
        List.Forall₂.cons (rect_annot _ lm) List.Forall₂.nil⟩
    | lit i l vp =>
      exact ⟨_, _, _, toDotInt_leaf_fresh hv (by rfl), toDotInt_leaf_fresh hv (by rfl),
        List.Forall₂.cons (rect_annot _ lm) List.Forall₂.nil⟩
    | dec nid es vp =>
      have hv' : nid ∉ vis := hv
      obtain ⟨a, b, vis', ha, hb, hrel⟩ := annot_elems nid es 0 (nid :: vis) lm
      refine ⟨circleLine (.dec nid es vp) lm true :: a,
        circleLine (.dec nid es vp) lm false :: b, vis', ?_, ?_, ?_⟩
      · rw [toDotInt_dec_fresh hv']
        simp only [ha]
      · rw [toDotInt_dec_fresh hv']
        simp only [hb]
      · exact List.Forall₂.cons (circle_annot _ lm) hrel

theorem annot_elems : ∀ (nid : Nat) (es : SddElems) (idx : Nat) (vis : List Nat)
    (lm : Option (List (LabelKey × String))),
    ∃ a b vis', sddelems_to_dot_int nid es idx vis lm true = some (a, vis')
      ∧ sddelems_to_dot_int nid es idx vis lm false = some (b, vis')
      ∧ List.Forall₂ XlabelAnnotates a b
| nid, .nil, idx, vis, lm =>
  ⟨[], [], vis, elemsInt_nil, elemsInt_nil, List.Forall₂.nil⟩
| nid, .cons p s rest, idx, vis, lm => by
  obtain ⟨ap, bp, v1, hap, hbp, hrp⟩ := annot_node p vis lm
  obtain ⟨aq, bq, v2, haq, hbq, hrq⟩ := annot_node s v1 lm
  obtain ⟨ar, br, v3, har, hbr, hrr⟩ := annot_elems nid rest (idx + 1) v2 lm
  refine ⟨[psDeclLine nid idx, decToPsLine nid idx, psToChildLine nid idx p.id,
      psToChildLine nid idx s.id] ++ ap ++ aq ++ ar,
    [psDeclLine nid idx, decToPsLine nid idx, psToChildLine nid idx p.id,
      psToChildLine nid idx s.id] ++ bp ++ bq ++ br, v3, ?_, ?_, ?_⟩
  · rw [sddelems_to_dot_int]
    simp only [hap, haq, har]
  · rw [sddelems_to_dot_int]
    simp only [hbp, hbq, hbr]
  · exact List.rel_append (List.rel_append (List.rel_append
      (forall2_annot_refl _) hrp) hrq) hrr
end

end PySDD

namespace PySDD

theorem vtree_point_annot (p : Nat) :
    VtreeAnnotates (toString p ++ " [label=\"" ++ toString p ++ "\",shape=\"point\"];")
      (toString p ++ " [shape=\"point\"];") :=
  Or.inr (Or.inr ⟨toString p, toString p, rfl, rfl⟩)

theorem vtree_edge_annot (p c : Nat) (pad : String) :
    VtreeAnnotates (vtreeEdgeLine p c pad true) (vtreeEdgeLine p c pad false) := by
  right
  left
  refine ⟨toString p ++ " -> " ++ toString c ++ " [arrowhead=none", pad ++ toString c, ?_, ?_⟩
  · simp [vtreeEdgeLine, String.append_empty]
  · simp only [vtreeEdgeLine, if_pos, String.append_assoc]
    rw [quote_semi]

theorem vtreeNodeLine_node (p : Nat) (l r : Vtree) (lm : Option (List (LabelKey × String)))
    (si : Bool) : vtreeNodeLine (.node p l r) lm si
      = if si then toString p ++ " [label=\"" ++ toString p ++ "\",shape=\"point\"];"
        else toString p ++ " [shape=\"point\"];" := rfl

theorem vtree_annot (v : Vtree) (lm : Option (List (LabelKey × String))) :
    List.Forall₂ VtreeAnnotates (vtree_to_dot_int v lm true) (vtree_to_dot_int v lm false) := by
  induction v with
  | leaf p x =>
    exact List.Forall₂.cons (Or.inl rfl) List.Forall₂.nil
  | node p l r ihl ihr =>
    show List.Forall₂ VtreeAnnotates
      ([vtreeNodeLine (.node p l r) lm true]
        ++ ([vtreeEdgeLine p l.position "" true] ++ vtree_to_dot_int l lm true)
        ++ ([vtreeEdgeLine p r.position "     " true] ++ vtree_to_dot_int r lm true))
      ([vtreeNodeLine (.node p l r) lm false]
        ++ ([vtreeEdgeLine p l.position "" false] ++ vtree_to_dot_int l lm false)
        ++ ([vtreeEdgeLine p r.position "     " false] ++ vtree_to_dot_int r lm false))
    refine List.rel_append (List.rel_append ?_ ?_) ?_
    · rw [vtreeNodeLine_node, vtreeNodeLine_node, if_pos rfl]
      have hf : (if (false : Bool) then toString p ++ " [label=\"" ++ toString p
          ++ "\",shape=\"point\"];" else toString p ++ " [shape=\"point\"];")
          = toString p ++ " [shape=\"point\"];" := rfl
      rw [hf]
      exact List.Forall₂.cons (vtree_point_annot p) List.Forall₂.nil
    · exact List.Forall₂.cons (vtree_edge_annot p l.position "") ihl
    · exact List.Forall₂.cons (vtree_edge_annot p r.position "     ") ihr

theorem vtree_mem : ∀ (v : Vtree) (lm : Option (List (LabelKey × String))) (si : Bool)
    (t : Vtree), t ∈ v.subtrees →
    vtreeNodeLine t lm si ∈ vtree_to_dot_int v lm si
    ∧ (∀ p l r, t = .node p l r →
        vtreeEdgeLine p l.position "" si ∈ vtree_to_dot_int v lm si
        ∧ vtreeEdgeLine p r.position "     " si ∈ vtree_to_dot_int v lm si) := by
  intro v lm si
  induction v with
  | leaf p x =>
    intro t ht
    simp only [Vtree.subtrees, List.mem_singleton] at ht
    subst ht
    refine ⟨by simp [vtree_to_dot_int], ?_⟩
    intro q l r hq
    exact absurd hq (by simp)
  | node p l r ihl ihr =>
    intro t ht
    simp only [Vtree.subtrees, List.mem_cons, List.mem_append] at ht
    rcases ht with h | h | h
    · subst h
      refine ⟨by simp [vtree_to_dot_int], ?_⟩
      intro q l1 r1 hq
      injection hq with h1 h2 h3
      subst h1
      subst h2
      subst h3
      constructor
      · simp [vtree_to_dot_int]
      · simp [vtree_to_dot_int]
    · obtain ⟨hm, he⟩ := ihl t h
      refine ⟨by simp [vtree_to_dot_int, hm], ?_⟩
      intro q l1 r1 hq
      obtain ⟨h1, h2⟩ := he q l1 r1 hq
      exact ⟨by simp [vtree_to_dot_int, h1], by simp [vtree_to_dot_int, h2]⟩
    · obtain ⟨hm, he⟩ := ihr t h
      refine ⟨by simp [vtree_to_dot_int, hm], ?_⟩
      intro q l1 r1 hq
      obtain ⟨h1, h2⟩ := he q l1 r1 hq
      exact ⟨by simp [vtree_to_dot_int, h1], by simp [vtree_to_dot_int, h2]⟩

end PySDD

namespace PySDD

theorem wmc_fls {R : Type} [CommSemiring R] (i : Nat) (vp : Option Nat) (w : Int → Option R) :
    weighted_model_count (.fls i vp) w = .ok 0 := rfl

theorem wmc_tru {R : Type} [CommSemiring R] (i : Nat) (vp : Option Nat) (w : Int → Option R) :
    weighted_model_count (.tru i vp) w = .ok 1 := rfl

theorem wmc_lit {R : Type} [CommSemiring R] (i : Nat) (l : Int) (vp : Option Nat)
    (w : Int → Option R) : weighted_model_count (.lit i l vp) w
      = match w l with | some r => .ok r | none => .error .missingWeight := by
  rw [weighted_model_count]

theorem wmc_dec {R : Type} [CommSemiring R] (i : Nat) (es : SddElems) (vp : Option Nat)
    (w : Int → Option R) : weighted_model_count (.dec i es vp) w = wmcElems es w := by
  rw [weighted_model_count]

mutual
theorem wmc_missing_node {R : Type} [inst : CommSemiring R] :
    ∀ (n : SddNode) (w : Int → Option R),
    (weighted_model_count n w = .error .missingWeight ↔ ∃ l ∈ litsOf n, w l = none)
| .fls i vp, w => by
  rw [wmc_fls]
  simp [litsOf]
| .tru i vp, w => by
  rw [wmc_tru]
  simp [litsOf]
| .lit i l vp, w => by
  rw [wmc_lit]
  cases hw : w l with
  | none => simp [litsOf, hw]
  | some r => simp [litsOf, hw]
| .dec i es vp, w => by
  rw [wmc_dec]
  have h := @wmc_missing_elems R inst es w
  simpa [litsOf] using h

theorem wmc_missing_elems {R : Type} [inst : CommSemiring R] :
    ∀ (es : SddElems) (w : Int → Option R),
    (wmcElems es w = .error .missingWeight ↔ ∃ l ∈ litsOfElems es, w l = none)
| .nil, w => by
  rw [wmcElems]
  simp [litsOfElems]
| .cons p s rest, w => by
  rw [wmcElems]
  have hp := @wmc_missing_node R inst p w
  have hs := @wmc_missing_node R inst s w
  have hr := @wmc_missing_elems R inst rest w
  cases hcp : weighted_model_count p w with
  | error e =>
    cases e
    simp only [litsOfElems, List.mem_append]
    constructor
    · intro _
      obtain ⟨l, hl, hw⟩ := hp.1 hcp
      exact ⟨l, Or.inl (Or.inl hl), hw⟩
    · intro _
      trivial
  | ok a =>
    cases hcs : weighted_model_count s w with
    | error e =>
      cases e
      simp only [litsOfElems, List.mem_append]
      constructor
      · intro _
        obtain ⟨l, hl, hw⟩ := hs.1 hcs
        exact ⟨l, Or.inl (Or.inr hl), hw⟩
      · intro _
        trivial
    | ok b =>
      cases hcr : wmcElems rest w with
      | error e =>
        cases e
        simp only [litsOfElems, List.mem_append]
        constructor
        · intro _
          obtain ⟨l, hl, hw⟩ := hr.1 hcr
          exact ⟨l, Or.inr hl, hw⟩
        · intro _
          trivial
      | ok c =>
        simp only [litsOfElems, List.mem_append]
        constructor
        · intro hcontra
          exact absurd hcontra (by simp)
        · rintro ⟨l, hl, hw⟩
          rcases hl with (hl | hl) | hl
          · exact absurd (hp.2 ⟨l, hl, hw⟩) (by simp [hcp])
          · exact absurd (hs.2 ⟨l, hl, hw⟩) (by simp [hcs])
          · exact absurd (hr.2 ⟨l, hl, hw⟩) (by simp [hcr])
end

end PySDD

namespace PySDD

theorem updateFn_at (a : Nat → Bool) (v : Nat) (b : Bool) : updateFn a v b v = b := by
  simp [updateFn]

theorem updateFn_ne (a : Nat → Bool) {u v : Nat} (b : Bool) (h : u ≠ v) :
    updateFn a v b u = a u := by
  simp [updateFn, h]

theorem updateFn_updateFn (a : Nat → Bool) (v : Nat) (x y : Bool) :
    updateFn (updateFn a v x) v y = updateFn a v y := by
  funext u
  by_cases h : u = v <;> simp [updateFn, h]

theorem updateFn_comm (a : Nat → Bool) {u v : Nat} (x y : Bool) (h : u ≠ v) :
    updateFn (updateFn a v x) u y = updateFn (updateFn a u y) v x := by
  funext t
  by_cases h1 : t = u
  · subst h1
    simp [updateFn, h]
  · by_cases h2 : t = v
    · simp [updateFn, h1, h2, Ne.symm h]
    · simp [updateFn, h1, h2]

theorem any_congr_mem {α : Type} {l : List α} {f g : α → Bool}
    (h : ∀ x ∈ l, f x = g x) : l.any f = l.any g := by
  induction l with
  | nil => rfl
  | cons x xs ih =>
    simp only [List.any_cons]
    rw [h x (by simp), ih (fun y hy => h y (by simp [hy]))]

theorem evalElems_any : ∀ (es : SddElems) (a : Nat → Bool),
    evalElems es a = (es.toList.any fun e => evalNode e.1 a && evalNode e.2 a)
| .nil, a => rfl
| .cons p s rest, a => by
  rw [evalElems, SddElems.toList]
  simp only [List.any_cons]
  rw [evalElems_any rest a]

theorem eval_sens {n : SddNode} {V : List Nat} (hwf : Wf n V) :
    ∀ v, v ∉ V → ∀ (a : Nat → Bool) (b : Bool), evalNode n (updateFn a v b) = evalNode n a := by
  induction hwf with
  | fls i vp V => intro v hv a b; rfl
  | tru i vp => intro v hv a b; rfl
  | lit i l vp hl =>
    intro v hv a b
    have hne : l.natAbs ≠ v := fun he => hv (by simp [he])
    rw [evalNode, evalNode, updateFn_ne _ _ hne]
  | dec i es vp Vp Vs hp hs hdisj hexcl ihp ihs =>
    intro v hv a b
    have hvp : v ∉ Vp := fun h => hv (List.mem_append.2 (Or.inl h))
    have hvs : v ∉ Vs := fun h => hv (List.mem_append.2 (Or.inr h))
    rw [evalNode, evalNode, evalElems_any, evalElems_any]
    apply any_congr_mem
    intro e he
    obtain ⟨p1, s1⟩ := e
    rw [ihp p1 s1 he v hvp a b, ihs p1 s1 he v hvs a b]

end PySDD

namespace PySDD

theorem semSum_nil {R : Type} [CommSemiring R] (w : Int → R) (a : Nat → Bool)
    (f : (Nat → Bool) → Bool) : semSum w [] a f = if f a then 1 else 0 := rfl

theorem semSum_cons {R : Type} [CommSemiring R] (w : Int → R) (v : Nat) (vs : List Nat)
    (a : Nat → Bool) (f : (Nat → Bool) → Bool) :
    semSum w (v :: vs) a f = w (Int.ofNat v) * semSum w vs (updateFn a v true) f
      + w (-(Int.ofNat v)) * semSum w vs (updateFn a v false) f := rfl

theorem semSum_congr {R : Type} [CommSemiring R] (w : Int → R) (vs : List Nat) (a : Nat → Bool)
    {f g : (Nat → Bool) → Bool} (h : ∀ t, f t = g t) : semSum w vs a f = semSum w vs a g := by
  induction vs generalizing a with
  | nil => rw [semSum_nil, semSum_nil, h a]
  | cons v vs ih => rw [semSum_cons, semSum_cons, ih, ih]

theorem semSum_zero {R : Type} [CommSemiring R] (w : Int → R) (vs : List Nat) (a : Nat → Bool)
    {f : (Nat → Bool) → Bool} (h : ∀ t, f t = false) : semSum w vs a f = 0 := by
  induction vs generalizing a with
  | nil => rw [semSum_nil, h a]; simp
  | cons v vs ih => rw [semSum_cons, ih, ih]; ring

theorem semSum_or {R : Type} [CommSemiring R] (w : Int → R) (vs : List Nat) (a : Nat → Bool)
    {f g : (Nat → Bool) → Bool} (h : ∀ t, ¬(f t = true ∧ g t = true)) :
    semSum w vs a (fun t => f t || g t) = semSum w vs a f + semSum w vs a g := by
  induction vs generalizing a with
  | nil =>
    rw [semSum_nil, semSum_nil, semSum_nil]
    cases hf : f a with
    | true =>
      cases hg : g a with
      | true => exact absurd ⟨hf, hg⟩ (h a)
      | false => simp
    | false =>
      cases hg : g a with
      | true => simp
      | false => simp
  | cons v vs ih =>
    rw [semSum_cons, semSum_cons, semSum_cons, ih, ih]
    ring

theorem semSum_insens_update {R : Type} [CommSemiring R] (w : Int → R)
    {g : (Nat → Bool) → Bool} {u : Nat} (hg : ∀ t c, g (updateFn t u c) = g t) :
    ∀ (bs : List Nat) (a : Nat → Bool) (x : Bool),
    semSum w bs (updateFn a u x) g = semSum w bs a g := by
  intro bs
  induction bs with
  | nil =>
    intro a x
    rw [semSum_nil, semSum_nil, hg a x]
  | cons v vs ih =>
    intro a x
    rw [semSum_cons, semSum_cons]
    by_cases hvu : v = u
    · subst hvu
      rw [updateFn_updateFn, updateFn_updateFn]
    · rw [updateFn_comm a x true hvu, updateFn_comm a x false hvu, ih, ih]

theorem semSum_if_head {R : Type} [CommSemiring R] (w : Int → R)
    {f g : (Nat → Bool) → Bool} : ∀ (bs : List Nat) (a : Nat → Bool),
    (∀ u ∈ bs, ∀ t c, f (updateFn t u c) = f t) →
    semSum w bs a (fun t => f t && g t) = if f a then semSum w bs a g else 0 := by
  intro bs
  induction bs with
  | nil =>
    intro a _
    rw [semSum_nil, semSum_nil]
    cases hf : f a with
    | true => simp
    | false => simp
  | cons v vs ih =>
    intro a hf
    have hfv : ∀ t c, f (updateFn t v c) = f t := hf v (by simp)
    have hfvs : ∀ u ∈ vs, ∀ t c, f (updateFn t u c) = f t :=
      fun u hu => hf u (by simp [hu])
    rw [semSum_cons, ih _ hfvs, ih _ hfvs, hfv a true, hfv a false]
    cases hfa : f a with
    | true => rw [if_pos rfl, if_pos rfl, if_pos rfl, semSum_cons]
    | false =>
      rw [if_neg (by simp), if_neg (by simp), if_neg (by simp)]
      ring

theorem semSum_split {R : Type} [CommSemiring R] (w : Int → R)
    {f g : (Nat → Bool) → Bool} : ∀ (as2 bs : List Nat) (a : Nat → Bool),
    (∀ u ∈ bs, ∀ t c, f (updateFn t u c) = f t) →
    (∀ u ∈ as2, ∀ t c, g (updateFn t u c) = g t) →
    semSum w (as2 ++ bs) a (fun t => f t && g t) = semSum w as2 a f * semSum w bs a g := by
  intro as2
  induction as2 with
  | nil =>
    intro bs a hf _
    rw [List.nil_append, semSum_if_head w bs a hf, semSum_nil]
    cases hfa : f a with
    | true => simp
    | false => simp
  | cons v vs ih =>
    intro bs a hf hg
    have hgv : ∀ t c, g (updateFn t v c) = g t := hg v (by simp)
    have hgvs : ∀ u ∈ vs, ∀ t c, g (updateFn t u c) = g t :=
      fun u hu => hg u (by simp [hu])
    rw [List.cons_append, semSum_cons, ih bs _ hf hgvs, ih bs _ hf hgvs,
      semSum_insens_update w hgv bs a true, semSum_insens_update w hgv bs a false,
      semSum_cons]
    ring

theorem semSum_any {R : Type} [CommSemiring R] (w : Int → R) (vs : List Nat) (a : Nat → Bool) :
    ∀ (fs : List ((Nat → Bool) → Bool)),
    List.Pairwise (fun f g => ∀ t, ¬(f t = true ∧ g t = true)) fs →
    semSum w vs a (fun t => fs.any fun f => f t) = (fs.map fun f => semSum w vs a f).sum := by
  intro fs
  induction fs with
  | nil =>
    intro _
    have h0 : semSum w vs a (fun t => ([] : List ((Nat → Bool) → Bool)).any fun f => f t)
        = semSum w vs a (fun _ => false) :=
      semSum_congr w vs a (fun t => rfl)
    rw [h0, semSum_zero w vs a (fun _ => rfl)]
    simp
  | cons f fs ih =>
    intro hpw
    have hhead : ∀ g ∈ fs, ∀ t, ¬(f t = true ∧ g t = true) := (List.pairwise_cons.1 hpw).1
    have htail := (List.pairwise_cons.1 hpw).2
    have hc : ∀ t, ((f :: fs).any fun h => h t) = (f t || (fs.any fun h => h t)) := by
      intro t
      simp [List.any_cons]
    rw [semSum_congr w vs a hc]
    have hexcl : ∀ t, ¬(f t = true ∧ (fs.any fun h => h t) = true) := by
      intro t ⟨hft, hany⟩
      obtain ⟨g, hg, hgt⟩ := List.any_eq_true.1 hany
      exact hhead g hg t ⟨hft, hgt⟩
    rw [semSum_or w vs a hexcl, ih htail]
    simp

end PySDD

namespace PySDD

theorem any_map_apply {α : Type} (l : List α) (F : α → (Nat → Bool) → Bool) (t : Nat → Bool) :
    ((l.map F).any fun f => f t) = l.any fun e => F e t := by
  induction l with
  | nil => rfl
  | cons x xs ih => simp [List.any_cons, ih]

theorem wmcElems_ok {R : Type} [CommSemiring R] (w : Int → Option R) (F G : SddNode → R) :
    ∀ (es : SddElems),
    (∀ p s, (p, s) ∈ es.toList → weighted_model_count p w = .ok (F p)) →
    (∀ p s, (p, s) ∈ es.toList → weighted_model_count s w = .ok (G s)) →
    wmcElems es w = .ok ((es.toList.map fun e => F e.1 * G e.2).sum)
| .nil => by
  intro _ _
  rw [wmcElems]
  simp [SddElems.toList]
| .cons p s rest => by
  intro hF hG
  have hrec := wmcElems_ok w F G rest
    (fun p1 s1 h => hF p1 s1 (by simp [SddElems.toList, h]))
    (fun p1 s1 h => hG p1 s1 (by simp [SddElems.toList, h]))
  rw [wmcElems]
  simp only [hF p s (by simp [SddElems.toList]), hG p s (by simp [SddElems.toList]), hrec]
  simp [SddElems.toList]

theorem wmc_semSum {R : Type} [CommSemiring R] (w : Int → R) {n : SddNode} {V : List Nat}
    (hwf : Wf n V) : ∀ a, weighted_model_count n (fun l => some (w l))
      = .ok (semSum w V a fun t => evalNode n t) := by
  induction hwf with
  | fls i vp V =>
    intro a
    rw [wmc_fls, @semSum_zero R _ w V a (fun t => evalNode (.fls i vp) t) (fun t => rfl)]
  | tru i vp =>
    intro a
    rw [wmc_tru, semSum_nil]
    simp [evalNode]
  | lit i l vp hl =>
    intro a
    rw [wmc_lit, semSum_cons, semSum_nil, semSum_nil]
    by_cases hpos : 0 < l
    · have e1 : evalNode (.lit i l vp) (updateFn a l.natAbs true) = true := by
        simp [evalNode, hpos, updateFn]
      have e2 : evalNode (.lit i l vp) (updateFn a l.natAbs false) = false := by
        simp [evalNode, hpos, updateFn]
      rw [e1, e2]
      have e3 : (Int.ofNat l.natAbs) = l := by
        simp only [Int.ofNat_eq_coe]
        omega
      rw [e3]
      simp
    · have hneg : l < 0 := by omega
      have e1 : evalNode (.lit i l vp) (updateFn a l.natAbs true) = false := by
        simp [evalNode, updateFn, hpos]
      have e2 : evalNode (.lit i l vp) (updateFn a l.natAbs false) = true := by
        simp [evalNode, updateFn, hpos]
      rw [e1, e2]
      have e3 : (-(Int.ofNat l.natAbs)) = l := by
        simp only [Int.ofNat_eq_coe]
        omega
      rw [e3]
      simp
  | dec i es vp Vp Vs hp hs hdisj hexcl ihp ihs =>
    intro a
    rw [wmc_dec]
    rw [wmcElems_ok (fun l => some (w l)) (fun p => semSum w Vp a fun t => evalNode p t)
      (fun s => semSum w Vs a fun t => evalNode s t) es
      (fun p s hm => ihp p s hm a) (fun p s hm => ihs p s hm a)]
    have hc1 : ∀ t, evalNode (.dec i es vp) t
        = ((es.toList.map fun e => fun t2 => evalNode e.1 t2 && evalNode e.2 t2).any
            fun f => f t) := by
      intro t
      have h1 : evalNode (.dec i es vp) t = evalElems es t := by rw [evalNode]
      rw [h1, evalElems_any, any_map_apply]
    rw [semSum_congr w (Vp ++ Vs) a hc1]
    have hpw : List.Pairwise (fun f g => ∀ t, ¬(f t = true ∧ g t = true))
        (es.toList.map fun e => fun t2 => evalNode e.1 t2 && evalNode e.2 t2) := by
      refine List.Pairwise.map _ ?_ hexcl
      intro x y hxy t hc
      obtain ⟨h1, h2⟩ := hc
      simp only [Bool.and_eq_true] at h1 h2
      exact hxy t ⟨h1.1, h2.1⟩
    rw [semSum_any w (Vp ++ Vs) a _ hpw, List.map_map]
    have hmapeq : (es.toList.map
        ((fun f => semSum w (Vp ++ Vs) a f)
          ∘ fun e => fun t2 => evalNode e.1 t2 && evalNode e.2 t2))
        = es.toList.map fun e =>
            (semSum w Vp a fun t => evalNode e.1 t) * semSum w Vs a fun t => evalNode e.2 t := by
      apply List.map_congr_left
      intro e he
      obtain ⟨p1, s1⟩ := e
      have hf : ∀ u ∈ Vs, ∀ t c, evalNode p1 (updateFn t u c) = evalNode p1 t :=
        fun u hu t c => eval_sens (hp p1 s1 he) u (fun hin => hdisj u hin hu) t c
      have hg : ∀ u ∈ Vp, ∀ t c, evalNode s1 (updateFn t u c) = evalNode s1 t :=
        fun u hu t c => eval_sens (hs p1 s1 he) u (hdisj u hu) t c
      exact semSum_split w Vp Vs a hf hg
    rw [hmapeq]

end PySDD

namespace PySDD

mutual
theorem total_node : ∀ (node : SddNode) (vis : List Nat)
    (lm : Option (List (LabelKey × String))) (si : Bool),
    (sddnode_to_dot_int node vis lm si).isSome = true
| node, vis, lm, si => by
  rw [sddnode_to_dot_int]
  by_cases hv : node.id ∈ vis
  · simp [hv]
  · simp only [hv, if_false]
    cases node with
    | fls i v => simp [SddNode.isFalseN]
    | tru i v => simp [SddNode.isFalseN, SddNode.isTrueN]
    | lit i l v => simp [SddNode.isFalseN, SddNode.isTrueN, SddNode.isLiteralN]
    | dec i es v =>
      simp only [SddNode.isFalseN, SddNode.isTrueN, SddNode.isLiteralN, Bool.or_false]
      have h := total_elems i es 0 (SddNode.id (.dec i es v) :: vis) lm si
      obtain ⟨⟨ls, vs⟩, hh⟩ := Option.isSome_iff_exists.1 h
      simp [hh]

theorem total_elems : ∀ (nid : Nat) (elems : SddElems) (idx : Nat) (vis : List Nat)
    (lm : Option (List (LabelKey × String))) (si : Bool),
    (sddelems_to_dot_int nid elems idx vis lm si).isSome = true
| nid, .nil, idx, vis, lm, si => by rw [sddelems_to_dot_int]; simp
| nid, .cons p s rest, idx, vis, lm, si => by
  rw [sddelems_to_dot_int]
  obtain ⟨⟨sp, v1⟩, h1⟩ := Option.isSome_iff_exists.1 (total_node p vis lm si)
  obtain ⟨⟨ss, v2⟩, h2⟩ := Option.isSome_iff_exists.1 (total_node s v1 lm si)
  obtain ⟨⟨sr, v3⟩, h3⟩ := Option.isSome_iff_exists.1 (total_elems nid rest (idx + 1) v2 lm si)
  simp [h1, h2, h3]
end

theorem fresh_decl_one : ∀ (node : SddNode) (vis : List Nat)
    (lm : Option (List (LabelKey × String))) (si : Bool) (lines : List String) (vis' : List Nat),
    node.id ∉ vis → sddnode_to_dot_int node vis lm si = some (lines, vis') →
    declCount node.id lines = 1 := by
  intro node vis lm si lines vis' hv h
  cases node with
  | dec nid es vp =>
    have hv' : nid ∉ vis := hv
    obtain ⟨s, v2, hs, hco, _, _, _, _⟩ := master_elems nid es 0 (nid :: vis) lm si (by simp)
    rw [toDotInt_dec_fresh hv', hs] at h
    simp only [Option.some.injEq, Prod.mk.injEq] at h
    rw [← h.1, declCount_cons_hit _ ((declHit_circle _ _ lm si).2 rfl),
      hco.2.1 _ (by simp [SddNode.id])]
  | fls i vp =>
    rw [toDotInt_leaf_fresh hv (by rfl)] at h
    simp only [Option.some.injEq, Prod.mk.injEq] at h
    rw [← h.1, declCount_cons_hit _ ((declHit_rect _ _ lm si).2 rfl), declCount_nil]
  | tru i vp =>
    rw [toDotInt_leaf_fresh hv (by rfl)] at h
    simp only [Option.some.injEq, Prod.mk.injEq] at h
    rw [← h.1, declCount_cons_hit _ ((declHit_rect _ _ lm si).2 rfl), declCount_nil]
  | lit i l vp =>
    rw [toDotInt_leaf_fresh hv (by rfl)] at h
    simp only [Option.some.injEq, Prod.mk.injEq] at h
    rw [← h.1, declCount_cons_hit _ ((declHit_rect _ _ lm si).2 rfl), declCount_nil]

theorem excl_var (i j v : Nat) (hv : v ≠ 0) (vp vq : Option Nat) (x y : SddNode) :
    ExclPair (SddNode.lit i (Int.ofNat v) vp, x) (SddNode.lit j (-(Int.ofNat v)) vq, y) := by
  rintro a ⟨h1, h2⟩
  simp only [evalNode] at h1 h2
  rw [if_pos (by simp only [Int.ofNat_eq_coe]; omega : (0 : Int) < Int.ofNat v)] at h1
  rw [if_neg (by simp only [Int.ofNat_eq_coe]; omega : ¬((0 : Int) < -(Int.ofNat v)))] at h2
  have he : (-(Int.ofNat v)).natAbs = (Int.ofNat v).natAbs := by
    simp only [Int.ofNat_eq_coe]
    omega
  rw [he, h1] at h2
  simp at h2

end PySDD

namespace PySDD

theorem wf_nTop3 : Wf nTop3 [3] := by
  show Wf (.dec 13 (.cons (.lit 6 3 none) nTrue (.cons (.lit 7 (-3) none) nTrue .nil)) none)
    ([3] ++ [])
  apply Wf.dec
  · intro p s hm
    simp only [SddElems.toList, List.mem_cons, List.not_mem_nil, or_false,
      Prod.mk.injEq] at hm
    rcases hm with ⟨rfl, rfl⟩ | ⟨rfl, rfl⟩
    · exact Wf.lit 6 3 none (by decide)
    · exact Wf.lit 7 (-3) none (by decide)
  · intro p s hm
    simp only [SddElems.toList, List.mem_cons, List.not_mem_nil, or_false,
      Prod.mk.injEq] at hm
    rcases hm with ⟨rfl, rfl⟩ | ⟨rfl, rfl⟩
    · exact Wf.tru 1 none
    · exact Wf.tru 1 none
  · intro v hv
    simp
  · simp only [SddElems.toList, List.pairwise_cons, List.not_mem_nil, List.mem_cons]
    refine ⟨?_, by simp, by simp⟩
    intro e he
    simp only [List.mem_cons, List.not_mem_nil, or_false] at he
    subst he
    exact excl_var 6 7 3 (by decide) none none nTrue nTrue

theorem wf_nOr23 : Wf nOr23 [2, 3] := by
  show Wf (.dec 11 (.cons (.lit 4 2 none) nTop3
    (.cons (.lit 5 (-2) none) (.lit 6 3 none) .nil)) none) ([2] ++ [3])
  apply Wf.dec
  · intro p s hm
    simp only [SddElems.toList, List.mem_cons, List.not_mem_nil, or_false,
      Prod.mk.injEq] at hm
    rcases hm with ⟨rfl, rfl⟩ | ⟨rfl, rfl⟩
    · exact Wf.lit 4 2 none (by decide)
    · exact Wf.lit 5 (-2) none (by decide)
  · intro p s hm
    simp only [SddElems.toList, List.mem_cons, List.not_mem_nil, or_false,
      Prod.mk.injEq] at hm
    rcases hm with ⟨rfl, rfl⟩ | ⟨rfl, rfl⟩
    · exact wf_nTop3
    · exact Wf.lit 6 3 none (by decide)
  · intro v hv
    simp at hv
    simp [hv]
  · simp only [SddElems.toList, List.pairwise_cons, List.not_mem_nil, List.mem_cons]
    refine ⟨?_, by simp, by simp⟩
    intro e he
    simp only [List.mem_cons, List.not_mem_nil, or_false] at he
    subst he
    exact excl_var 4 5 2 (by decide) none none nTop3 (.lit 6 3 none)

theorem wf_nAnd23 : Wf nAnd23 [2, 3] := by
  show Wf (.dec 12 (.cons (.lit 4 2 none) (.lit 6 3 none)
    (.cons (.lit 5 (-2) none) nFalse .nil)) none) ([2] ++ [3])
  apply Wf.dec
  · intro p s hm
    simp only [SddElems.toList, List.mem_cons, List.not_mem_nil, or_false,
      Prod.mk.injEq] at hm
    rcases hm with ⟨rfl, rfl⟩ | ⟨rfl, rfl⟩
    · exact Wf.lit 4 2 none (by decide)
    · exact Wf.lit 5 (-2) none (by decide)
  · intro p s hm
    simp only [SddElems.toList, List.mem_cons, List.not_mem_nil, or_false,
      Prod.mk.injEq] at hm
    rcases hm with ⟨rfl, rfl⟩ | ⟨rfl, rfl⟩
    · exact Wf.lit 6 3 none (by decide)
    · exact Wf.fls 0 none [3]
  · intro v hv
    simp at hv
    simp [hv]
  · simp only [SddElems.toList, List.pairwise_cons, List.not_mem_nil, List.mem_cons]
    refine ⟨?_, by simp, by simp⟩
    intro e he
    simp only [List.mem_cons, List.not_mem_nil, or_false] at he
    subst he
    exact excl_var 4 5 2 (by decide) none none (.lit 6 3 none) nFalse

theorem wf_rootMaj : Wf rootMaj [1, 2, 3] := by
  show Wf (.dec 14 (.cons (.lit 2 1 none) nOr23 (.cons (.lit 3 (-1) none) nAnd23 .nil)) none)
    ([1] ++ [2, 3])
  apply Wf.dec
  · intro p s hm
    simp only [SddElems.toList, List.mem_cons, List.not_mem_nil, or_false,
      Prod.mk.injEq] at hm
    rcases hm with ⟨rfl, rfl⟩ | ⟨rfl, rfl⟩
    · exact Wf.lit 2 1 none (by decide)
    · exact Wf.lit 3 (-1) none (by decide)
  · intro p s hm
    simp only [SddElems.toList, List.mem_cons, List.not_mem_nil, or_false,
      Prod.mk.injEq] at hm
    rcases hm with ⟨rfl, rfl⟩ | ⟨rfl, rfl⟩
    · exact wf_nOr23
    · exact wf_nAnd23
  · intro v hv
    simp at hv
    simp [hv]
  · simp only [SddElems.toList, List.pairwise_cons, List.not_mem_nil, List.mem_cons]
    refine ⟨?_, by simp, by simp⟩
    intro e he
    simp only [List.mem_cons, List.not_mem_nil, or_false] at he
    subst he
    exact excl_var 2 3 1 (by decide) none none nOr23 nAnd23

theorem wf_nX2s : Wf nX2s [2, 3] := by
  show Wf (.dec 21 (.cons (.lit 4 2 none) nTop3 (.cons (.lit 5 (-2) none) nFalse .nil)) none)
    ([2] ++ [3])
  apply Wf.dec
  · intro p s hm
    simp only [SddElems.toList, List.mem_cons, List.not_mem_nil, or_false,
      Prod.mk.injEq] at hm
    rcases hm with ⟨rfl, rfl⟩ | ⟨rfl, rfl⟩
    · exact Wf.lit 4 2 none (by decide)
    · exact Wf.lit 5 (-2) none (by decide)
  · intro p s hm
    simp only [SddElems.toList, List.mem_cons, List.not_mem_nil, or_false,
      Prod.mk.injEq] at hm
    rcases hm with ⟨rfl, rfl⟩ | ⟨rfl, rfl⟩
    · exact wf_nTop3
    · exact Wf.fls 0 none [3]
  · intro v hv
    simp at hv
    simp [hv]
  · simp only [SddElems.toList, List.pairwise_cons, List.not_mem_nil, List.mem_cons]
    refine ⟨?_, by simp, by simp⟩
    intro e he
    simp only [List.mem_cons, List.not_mem_nil, or_false] at he
    subst he
    exact excl_var 4 5 2 (by decide) none none nTop3 nFalse

theorem wf_nX3s : Wf nX3s [2, 3] := by
  show Wf (.dec 22 (.cons (.lit 4 2 none) (.lit 6 3 none)
    (.cons (.lit 5 (-2) none) (.lit 6 3 none) .nil)) none) ([2] ++ [3])
  apply Wf.dec
  · intro p s hm
    simp only [SddElems.toList, List.mem_cons, List.not_mem_nil, or_false,
      Prod.mk.injEq] at hm
    rcases hm with ⟨rfl, rfl⟩ | ⟨rfl, rfl⟩
    · exact Wf.lit 4 2 none (by decide)
    · exact Wf.lit 5 (-2) none (by decide)
  · intro p s hm
    simp only [SddElems.toList, List.mem_cons, List.not_mem_nil, or_false,
      Prod.mk.injEq] at hm
    rcases hm with ⟨rfl, rfl⟩ | ⟨rfl, rfl⟩
    · exact Wf.lit 6 3 none (by decide)
    · exact Wf.lit 6 3 none (by decide)
  · intro v hv
    simp at hv
    simp [hv]
  · simp only [SddElems.toList, List.pairwise_cons, List.not_mem_nil, List.mem_cons]
    refine ⟨?_, by simp, by simp⟩
    intro e he
    simp only [List.mem_cons, List.not_mem_nil, or_false] at he
    subst he
    exact excl_var 4 5 2 (by decide) none none (.lit 6 3 none) (.lit 6 3 none)

theorem wf_rootClaimed : Wf rootClaimed [1, 2, 3] := by
  show Wf (.dec 23 (.cons (.lit 2 1 none) nX2s (.cons (.lit 3 (-1) none) nX3s .nil)) none)
    ([1] ++ [2, 3])
  apply Wf.dec
  · intro p s hm
    simp only [SddElems.toList, List.mem_cons, List.not_mem_nil, or_false,
      Prod.mk.injEq] at hm
    rcases hm with ⟨rfl, rfl⟩ | ⟨rfl, rfl⟩
    · exact Wf.lit 2 1 none (by decide)
    · exact Wf.lit 3 (-1) none (by decide)
  · intro p s hm
    simp only [SddElems.toList, List.mem_cons, List.not_mem_nil, or_false,
      Prod.mk.injEq] at hm
    rcases hm with ⟨rfl, rfl⟩ | ⟨rfl, rfl⟩
    · exact wf_nX2s
    · exact wf_nX3s
  · intro v hv
    simp at hv
    simp [hv]
  · simp only [SddElems.toList, List.pairwise_cons, List.not_mem_nil, List.mem_cons]
    refine ⟨?_, by simp, by simp⟩
    intro e he
    simp only [List.mem_cons, List.not_mem_nil, or_false] at he
    subst he
    exact excl_var 2 3 1 (by decide) none none nX2s nX3s

end PySDD

namespace PySDD


theorem fanIn2_run : sddnode_to_dot_int fanIn2 [] none false = some (fanLines, fanVisited) := rfl

end PySDD

namespace PySDD

/-- C1 (amended): for every scope-correct circuit — each Literal scoped to
exactly its variable, True to the empty scope, and each Decision splitting
its scope into disjoint prime/sub parts with pairwise exclusive primes (the
smoothness/structuredness the plain recursive equations need) — and every
complete weight assignment, `weighted_model_count` returns the standard
weighted model count: the sum over all assignments to the scope's variables
of the product of the chosen literal weights, over satisfying assignments
of the circuit's Boolean function. -/
theorem claim_C1 (w : Int → ℚ) (n : SddNode) (V : List Nat) (a : Nat → Bool) (hwf : Wf n V) :
    weighted_model_count n (fun l => some (w l))
      = .ok (semSum w V a fun t => evalNode n t) :=
  wmc_semSum w hwf a

/-- C1 witness: the smooth majority circuit `rootMaj` is scope-correct over
variables 1, 2, 3 and the theorem applies to it with all-ones weights. -/
theorem claim_C1_witness :
    Wf rootMaj [1, 2, 3]
    ∧ weighted_model_count rootMaj (fun l => some (onesW l))
        = .ok (semSum onesW [1, 2, 3] (fun _ => false) fun t => evalNode rootMaj t) :=
  ⟨wf_rootMaj, claim_C1 onesW rootMaj [1, 2, 3] (fun _ => false) wf_rootMaj⟩

/-- C1 counterexample: `cexNode` = (x1 ∧ True) ∨ (¬x1 ∧ x2) satisfies the
spec's own §3 well-formedness (pairwise exclusive, collectively exhaustive
elements) and has a complete (all-ones) weight assignment, but the recursive
equations return 2 while the sum over the satisfying assignments of its
Boolean function over variables 1 and 2 is 3. -/
theorem claim_C1_counterexample :
    SpecWfN cexNode
    ∧ weighted_model_count cexNode (fun _ => some (1 : ℚ)) = .ok 2
    ∧ semSum (fun _ => (1 : ℚ)) [1, 2] (fun _ => false) (fun t => evalNode cexNode t) = 3
    ∧ (2 : ℚ) ≠ 3 := by
  refine ⟨?_, ?_, ?_, by norm_num⟩
  · show SpecDecisionOk (.cons (.lit 2 1 none) nTrue
        (.cons (.lit 3 (-1) none) (.lit 4 2 none) .nil))
      ∧ SpecWfE (.cons (.lit 2 1 none) nTrue (.cons (.lit 3 (-1) none) (.lit 4 2 none) .nil))
    refine ⟨⟨?_, ?_⟩, ?_⟩
    · simp only [SddElems.toList, List.pairwise_cons, List.mem_cons, List.not_mem_nil]
      refine ⟨?_, by simp, by simp⟩
      intro e he
      simp only [or_false] at he
      subst he
      exact excl_var 2 3 1 (by decide) none none nTrue (.lit 4 2 none)
    · intro a
      simp only [SddElems.toList, List.any_cons, List.any_nil, Bool.or_false]
      cases h1 : a 1 <;> simp [evalNode, h1]
    · exact ⟨trivial, trivial, trivial, trivial, trivial⟩
  · simp only [cexNode, nTrue, weighted_model_count, wmcElems]
    norm_num
  · simp only [semSum, cexNode, nTrue, evalNode, evalElems, updateFn]
    norm_num

/-- C2: one traversal call visits each node identity once — re-encountering
a visited node is a no-op emitting nothing; every successful traversal emits
at most one declaration per node id, and exactly one for the (fresh) root;
and a freshly processed decision node emits all its incoming element edges
(decision-to-product, product-to-prime, product-to-sub) for every element,
whether or not the children were already visited. -/
theorem claim_C2 :
    (∀ (node : SddNode) (vis : List Nat) (lm : Option (List (LabelKey × String))) (si : Bool),
      node.id ∈ vis → sddnode_to_dot_int node vis lm si = some ([], vis))
    ∧ (∀ (node : SddNode) (vis : List Nat) (lm : Option (List (LabelKey × String))) (si : Bool)
        (lines : List String) (vis' : List Nat),
        sddnode_to_dot_int node vis lm si = some (lines, vis') →
        (∀ i, declCount i lines ≤ 1)
        ∧ (node.id ∉ vis → declCount node.id lines = 1))
    ∧ (∀ (nid : Nat) (es : SddElems) (vp : Option Nat) (vis : List Nat)
        (lm : Option (List (LabelKey × String))) (si : Bool) (lines : List String)
        (vis' : List Nat), nid ∉ vis →
        sddnode_to_dot_int (.dec nid es vp) vis lm si = some (lines, vis') →
        ∀ k p s, es.toList[k]? = some (p, s) →
          decToPsLine nid k ∈ lines ∧ psToChildLine nid k p.id ∈ lines
          ∧ psToChildLine nid k s.id ∈ lines) := by
  refine ⟨?_, ?_, ?_⟩
  · intro node vis lm si h
    exact toDotInt_mem h
  · intro node vis lm si lines vis' h
    constructor
    · intro i
      obtain ⟨l0, v0, h0, _, hco, _⟩ := master_node node vis lm si
      rw [h0] at h
      simp only [Option.some.injEq, Prod.mk.injEq] at h
      rw [← h.1]
      exact hco.2.2.1 i
    · intro hfresh
      exact fresh_decl_one node vis lm si lines vis' hfresh h
  · intro nid es vp vis lm si lines vis' hfresh h k p s hk
    have hv' : nid ∉ vis := hfresh
    obtain ⟨s0, v2, hs, _, _, _, _, _⟩ := master_elems nid es 0 (nid :: vis) lm si (by simp)
    rw [toDotInt_dec_fresh hv', hs] at h
    simp only [Option.some.injEq, Prod.mk.injEq] at h
    have hedges := elems_edges nid es 0 (nid :: vis) lm si s0 v2 hs k p s hk
    have hz : (0 : Nat) + k = k := by omega
    rw [hz] at hedges
    rw [← h.1]
    exact ⟨List.mem_cons_of_mem _ hedges.2.1, List.mem_cons_of_mem _ hedges.2.2.1,
      List.mem_cons_of_mem _ hedges.2.2.2⟩

/-- C2 witness: in the fan-in-2 DAG `fanIn2` whose two elements share the
literal node with id 3, revisiting the shared node is a no-op, it is
declared exactly once in the export, and both incoming edges are present. -/
theorem claim_C2_witness :
    sddnode_to_dot_int sharedChild [3] none false = some ([], [3])
    ∧ (∀ i, declCount i fanLines ≤ 1)
    ∧ decToPsLine 10 0 ∈ fanLines
    ∧ psToChildLine 10 0 3 ∈ fanLines
    ∧ psToChildLine 10 1 3 ∈ fanLines := by
  refine ⟨claim_C2.1 sharedChild [3] none false (by decide),
    (claim_C2.2.1 fanIn2 [] none false fanLines fanVisited rfl).1, ?_, ?_, ?_⟩
  · exact (claim_C2.2.2 10 (.cons (.lit 4 2 none) sharedChild
      (.cons (.lit 5 (-2) none) sharedChild .nil)) none [] none false fanLines fanVisited
      (by decide) (by rfl) 0 (.lit 4 2 none) sharedChild (by rfl)).1
  · exact (claim_C2.2.2 10 (.cons (.lit 4 2 none) sharedChild
      (.cons (.lit 5 (-2) none) sharedChild .nil)) none [] none false fanLines fanVisited
      (by decide) (by rfl) 0 (.lit 4 2 none) sharedChild (by rfl)).2.2
  · exact (claim_C2.2.2 10 (.cons (.lit 4 2 none) sharedChild
      (.cons (.lit 5 (-2) none) sharedChild .nil)) none [] none false fanLines fanVisited
      (by decide) (by rfl) 1 (.lit 5 (-2) none) sharedChild (by rfl)).2.2

end PySDD

namespace PySDD

/-- C3 (amended): the reference scenario's two weighted counts 1.0 and 0.75
(fixed by the visible test suite) are produced by the three-variable circuit
for (x1 ∧ x2) ∨ (x1 ∧ x3) ∨ (x2 ∧ x3) — at-least-two-of-three — not by a
circuit for (x1 ∧ x2) ∨ (¬x1 ∧ x3): the smooth circuit `rootMaj` yields
exactly 1 under the full weights and exactly 3/4 with the weight of
literal -1 lowered to 0. -/
theorem claim_C3 :
    weighted_model_count rootMaj weightsA = .ok (1 : ℚ)
    ∧ weighted_model_count rootMaj weightsB = .ok ((3 : ℚ)/4)
    ∧ ∀ t : Nat → Bool, evalNode rootMaj t = ((t 1 && t 2) || (t 1 && t 3) || (t 2 && t 3)) := by
  refine ⟨?_, ?_, ?_⟩
  · simp only [rootMaj, nOr23, nAnd23, nTop3, nTrue, nFalse, weighted_model_count,
      wmcElems, weightsA]
    norm_num
  · simp only [rootMaj, nOr23, nAnd23, nTop3, nTrue, nFalse, weighted_model_count,
      wmcElems, weightsB]
    norm_num
  · intro t
    simp only [rootMaj, nOr23, nAnd23, nTop3, nTrue, nFalse, evalNode, evalElems]
    cases h1 : t 1 <;> cases h2 : t 2 <;> cases h3 : t 3 <;> simp [h1, h2, h3]

/-- C3 counterexample: the scope-correct smooth circuit `rootClaimed` for
the claim's Boolean function (x1 ∧ x2) ∨ (¬x1 ∧ x3) — the equivalence is
checked on all eight assignments of its three variables — yields 1 under
the full weights but 1/2, not 3/4, under the reduced weights. -/
theorem claim_C3_counterexample :
    Wf rootClaimed [1, 2, 3]
    ∧ (([false, true].all fun b1 => [false, true].all fun b2 => [false, true].all fun b3 =>
        evalNode rootClaimed
            (fun v => if v = 1 then b1 else if v = 2 then b2 else if v = 3 then b3 else false)
          == ((b1 && b2) || (!b1 && b3))) = true)
    ∧ weighted_model_count rootClaimed weightsA = .ok (1 : ℚ)
    ∧ weighted_model_count rootClaimed weightsB = .ok ((1 : ℚ)/2)
    ∧ ((1 : ℚ)/2 ≠ 3/4) := by
  refine ⟨wf_rootClaimed, by decide, ?_, ?_, by norm_num⟩
  · simp only [rootClaimed, nX2s, nX3s, nTop3, nTrue, nFalse, weighted_model_count,
      wmcElems, weightsA]
    norm_num
  · simp only [rootClaimed, nX2s, nX3s, nTop3, nTrue, nFalse, weighted_model_count,
      wmcElems, weightsB]
    norm_num

/-- C4: the weighted model counter fails with `MissingWeight` exactly when
some literal reachable in the circuit has no entry in the weight mapping —
no silent default is ever used. -/
theorem claim_C4 (n : SddNode) (w : Int → Option ℚ) :
    weighted_model_count n w = .error .missingWeight ↔ ∃ l ∈ litsOf n, w l = none :=
  wmc_missing_node n w

/-- C4 witness: a literal circuit with an empty weight mapping fails with
`MissingWeight`. -/
theorem claim_C4_witness :
    weighted_model_count (.lit 9 7 none) (fun _ => (none : Option ℚ))
      = .error .missingWeight :=
  (claim_C4 (.lit 9 7 none) (fun _ => none)).2 ⟨7, by simp [litsOf], rfl⟩

/-- C5 (amended): `sdd_to_dot` with an absent root fails with the typed
`ValueError "No root node given"` (the NoRoot failure); `vtree_to_dot`
performs no such check and instead fails with the untyped `AttributeError`
from calling a method on `None`. -/
theorem claim_C5 :
    (∀ (lm : Option (List (LabelKey × String))) (si : Bool),
      sdd_to_dot none lm si = .error (.valueError "No root node given"))
    ∧ (∀ (lm : Option (List (LabelKey × String))) (si : Bool),
        vtree_to_dot none lm si = .error .attributeError) :=
  ⟨fun _ _ => rfl, fun _ _ => rfl⟩

/-- C5 counterexample: calling `vtree_to_dot` on a `None` root raises
`AttributeError`, which is not the NoRoot failure
(`ValueError "No root node given"`). -/
theorem claim_C5_counterexample :
    vtree_to_dot none none false = .error .attributeError
    ∧ PyError.attributeError ≠ PyError.valueError "No root node given" :=
  ⟨rfl, by decide⟩

/-- C6: a freshly exported Decision node yields exactly one labeled shape
declaration for itself, exactly one synthetic product-node declaration per
element, and, for each element, the edge from the decision node to the
product node and the edges from the product node to the element's prime and
sub. -/
theorem claim_C6 (nid : Nat) (es : SddElems) (vp : Option Nat) (vis : List Nat)
    (lm : Option (List (LabelKey × String))) (si : Bool) (lines : List String)
    (vis' : List Nat) (hfresh : nid ∉ vis)
    (h : sddnode_to_dot_int (.dec nid es vp) vis lm si = some (lines, vis')) :
    declCount nid lines = 1
    ∧ (∀ k, k < es.length → lineCount (psDeclLine nid k) lines = 1)
    ∧ (∀ k p s, es.toList[k]? = some (p, s) →
        decToPsLine nid k ∈ lines ∧ psToChildLine nid k p.id ∈ lines
        ∧ psToChildLine nid k s.id ∈ lines) := by
  obtain ⟨s0, v2, hs, hco, hps0, hpsf, _, _⟩ :=
    master_elems nid es 0 (nid :: vis) lm si (by simp)
  have h2 := h
  rw [toDotInt_dec_fresh hfresh, hs] at h2
  simp only [Option.some.injEq, Prod.mk.injEq] at h2
  obtain ⟨hl, hv⟩ := h2
  refine ⟨fresh_decl_one (.dec nid es vp) vis lm si lines vis' hfresh h, ?_, ?_⟩
  · intro k hk
    rw [← hl, lineCount_cons_ne _ (Ne.symm (psDecl_ne_circle nid k _ lm si)), hpsf k]
    rw [if_pos ⟨by omega, by omega⟩]
  · intro k p s hkk
    have hedges := elems_edges nid es 0 (nid :: vis) lm si s0 v2 hs k p s hkk
    have hz : (0 : Nat) + k = k := by omega
    rw [hz] at hedges
    rw [← hl]
    exact ⟨List.mem_cons_of_mem _ hedges.2.1, List.mem_cons_of_mem _ hedges.2.2.1,
      List.mem_cons_of_mem _ hedges.2.2.2⟩

/-- C6 witness: the decision node of `fanIn2` (id 10, two elements) gets one
declaration, one product declaration per element, and all element edges. -/
theorem claim_C6_witness :
    declCount 10 fanLines = 1
    ∧ lineCount (psDeclLine 10 0) fanLines = 1
    ∧ lineCount (psDeclLine 10 1) fanLines = 1
    ∧ psToChildLine 10 0 3 ∈ fanLines
    ∧ psToChildLine 10 1 3 ∈ fanLines := by
  have h := claim_C6 10 (.cons (.lit 4 2 none) sharedChild
    (.cons (.lit 5 (-2) none) sharedChild .nil)) none [] none false fanLines fanVisited
    (by decide) (by rfl)
  exact ⟨h.1, h.2.1 0 (by decide), h.2.1 1 (by decide),
    (h.2.2 0 (.lit 4 2 none) sharedChild (by rfl)).2.2,
    (h.2.2 1 (.lit 5 (-2) none) sharedChild (by rfl)).2.2⟩

end PySDD

namespace PySDD

/-- C7 (amended): `show_id` is cosmetic for the circuit exporter — both runs
produce the same visited set and statement lists that pair up one-to-one,
each pair differing at most by an appended `xlabel` annotation — and for
the vtree body statements likewise (annotation pairs only); but the full
vtree document with `show_id` set additionally contains the two synthetic
`start` statements (an invisible node declaration and an invisible edge to
the root carrying its position), which are absent without `show_id`. -/
theorem claim_C7 :
    (∀ (node : SddNode) (vis : List Nat) (lm : Option (List (LabelKey × String))),
      ∃ a b vis', sddnode_to_dot_int node vis lm true = some (a, vis')
        ∧ sddnode_to_dot_int node vis lm false = some (b, vis')
        ∧ List.Forall₂ XlabelAnnotates a b)
    ∧ (∀ (v : Vtree) (lm : Option (List (LabelKey × String))),
        List.Forall₂ VtreeAnnotates (vtree_to_dot_int v lm true) (vtree_to_dot_int v lm false))
    ∧ (∀ (v : Vtree) (lm : Option (List (LabelKey × String))),
        vtreeDotStatements v lm true
          = ["digraph vtree \x7b", startDeclLine, startEdgeLine v]
            ++ vtree_to_dot_int v lm true ++ ["\x7d"]
        ∧ vtreeDotStatements v lm false
          = ["digraph vtree \x7b"] ++ vtree_to_dot_int v lm false ++ ["\x7d"]) :=
  ⟨fun node vis lm => annot_node node vis lm,
   fun v lm => vtree_annot v lm,
   fun v lm => ⟨rfl, rfl⟩⟩

/-- C7 counterexample: on a one-leaf vtree the `show_id` document declares
the synthetic `start` node and the `start` edge, neither of which appears in
the document without `show_id` — so the two documents do not declare the
same set of nodes and edges. -/
theorem claim_C7_counterexample :
    startDeclLine ∈ vtreeDotStatements (.leaf 0 1) none true
    ∧ startDeclLine ∉ vtreeDotStatements (.leaf 0 1) none false
    ∧ startEdgeLine (.leaf 0 1) ∈ vtreeDotStatements (.leaf 0 1) none true
    ∧ startEdgeLine (.leaf 0 1) ∉ vtreeDotStatements (.leaf 0 1) none false := by
  refine ⟨?_, ?_, ?_, ?_⟩ <;> decide

/-- C8: in the vtree export, every leaf of the tree is declared as a box
labeled with its variable (or its label_map-mapped name), every internal
node as a point shape, and every internal node has an edge to each child,
carrying the child's position as a `headlabel` annotation exactly when
`show_id` is set. -/
theorem claim_C8 (v : Vtree) (lm : Option (List (LabelKey × String))) (si : Bool)
    (t : Vtree) (ht : t ∈ v.subtrees) :
    (∀ p x, t = .leaf p x →
      (toString p ++ " [label=\"" ++ vtreeLeafName lm x ++ "\",shape=\"box\"];")
        ∈ vtree_to_dot_int v lm si)
    ∧ (∀ p l r, t = .node p l r →
        ((if si then toString p ++ " [label=\"" ++ toString p ++ "\",shape=\"point\"];"
            else toString p ++ " [shape=\"point\"];") ∈ vtree_to_dot_int v lm si)
        ∧ (toString p ++ " -> " ++ toString l.position ++ " [arrowhead=none"
            ++ (if si then ",headclip=true,headlabel=\"" ++ toString l.position ++ "\"" else "")
            ++ "];") ∈ vtree_to_dot_int v lm si
        ∧ (toString p ++ " -> " ++ toString r.position ++ " [arrowhead=none"
            ++ (if si then ",headclip=true,headlabel=\"" ++ "     " ++ toString r.position
                ++ "\"" else "")
            ++ "];") ∈ vtree_to_dot_int v lm si) := by
  have hm := vtree_mem v lm si t ht
  constructor
  · intro p x hteq
    subst hteq
    exact hm.1
  · intro p l r hteq
    subst hteq
    refine ⟨?_, ?_, ?_⟩
    · have h0 := hm.1
      rw [vtreeNodeLine_node] at h0
      exact h0
    · have h0 := (hm.2 p l r rfl).1
      have he : vtreeEdgeLine p l.position "" si
          = toString p ++ " -> " ++ toString l.position ++ " [arrowhead=none"
            ++ (if si then ",headclip=true,headlabel=\"" ++ toString l.position ++ "\"" else "")
            ++ "];" := by
        cases si <;> simp [vtreeEdgeLine, String.append_empty]
      rw [← he]
      exact h0
    · exact (hm.2 p l r rfl).2

/-- C8 witness: for the two-leaf vtree with root position 1, the theorem
yields the box declaration of the left leaf and the point declaration and
left edge of the root. -/
theorem claim_C8_witness :
    (toString 0 ++ " [label=\"" ++ vtreeLeafName none 1 ++ "\",shape=\"box\"];")
      ∈ vtree_to_dot_int (.node 1 (.leaf 0 1) (.leaf 2 2)) none false
    ∧ (toString 1 ++ " [shape=\"point\"];")
      ∈ vtree_to_dot_int (.node 1 (.leaf 0 1) (.leaf 2 2)) none false
    ∧ (toString 1 ++ " -> " ++ toString 0 ++ " [arrowhead=none" ++ "" ++ "];")
      ∈ vtree_to_dot_int (.node 1 (.leaf 0 1) (.leaf 2 2)) none false := by
  have h1 := claim_C8 (.node 1 (.leaf 0 1) (.leaf 2 2)) none false (.leaf 0 1) (by decide)
  have h2 := claim_C8 (.node 1 (.leaf 0 1) (.leaf 2 2)) none false
    (.node 1 (.leaf 0 1) (.leaf 2 2)) (by decide)
  refine ⟨h1.1 0 1 rfl, ?_, ?_⟩
  · have h0 := (h2.2 1 (.leaf 0 1) (.leaf 2 2) rfl).1
    simpa using h0
  · have h0 := (h2.2 1 (.leaf 0 1) (.leaf 2 2) rfl).2.1
    simpa using h0

/-- C9: in the embedding every circuit node satisfies one of the four
variant predicates (is_false, is_true, is_literal, is_decision), so the
`None`-returning fall-through branch of `_sddnode_to_dot_int` is
unreachable and the traversal is total: it always returns a statement
list. -/
theorem claim_C9 (node : SddNode) (vis : List Nat)
    (lm : Option (List (LabelKey × String))) (si : Bool) :
    (node.isFalseN || node.isTrueN || node.isLiteralN || node.isDecisionN) = true
    ∧ (sddnode_to_dot_int node vis lm si).isSome = true := by
  constructor
  · cases node <;> rfl
  · exact total_node node vis lm si

end PySDD

namespace PySDD

/-- C10: the `litnamemap` lookup is applied to whatever preliminary name was
chosen for the node, so entries keyed by the True glyph `⟙`, the False glyph
`⟘`, or the Decision label `+` remap the rendered labels of constant and
Decision nodes as well, exactly as an integer key remaps a Literal node's
label. -/
theorem claim_C10 :
    (∀ (i : Nat) (vp : Option Nat) (vis : List Nat) (m : List (LabelKey × String))
      (si : Bool) (v : String), i ∉ vis → lookupKey m (.str "⟙") = some v →
      sddnode_to_dot_int (.tru i vp) vis (some m) si
        = some ([toString i ++ " [shape=rectangle,label=\"" ++ v ++ "\""
            ++ (if si then ",xlabel=\"" ++ format_sddnode_xlabel (.tru i vp) ++ "\"" else "")
            ++ "];"], i :: vis))
    ∧ (∀ (i : Nat) (vp : Option Nat) (vis : List Nat) (m : List (LabelKey × String))
      (si : Bool) (v : String), i ∉ vis → lookupKey m (.str "⟘") = some v →
      sddnode_to_dot_int (.fls i vp) vis (some m) si
        = some ([toString i ++ " [shape=rectangle,label=\"" ++ v ++ "\""
            ++ (if si then ",xlabel=\"" ++ format_sddnode_xlabel (.fls i vp) ++ "\"" else "")
            ++ "];"], i :: vis))
    ∧ (∀ (i : Nat) (es : SddElems) (vp : Option Nat) (vis : List Nat)
      (m : List (LabelKey × String)) (si : Bool) (v : String) (lines : List String)
      (vis' : List Nat), i ∉ vis → lookupKey m (.str "+") = some v →
      sddnode_to_dot_int (.dec i es vp) vis (some m) si = some (lines, vis') →
      lines.head? = some (toString i ++ " [shape=circle,label=\"" ++ v ++ "\""
        ++ (if si then ",xlabel=\"" ++ format_sddnode_xlabel (.dec i es vp) ++ "\"" else "")
        ++ "];"))
    ∧ (∀ (i : Nat) (l : Int) (vp : Option Nat) (vis : List Nat)
      (m : List (LabelKey × String)) (si : Bool) (v : String), i ∉ vis →
      lookupKey m (.int l) = some v →
      sddnode_to_dot_int (.lit i l vp) vis (some m) si
        = some ([toString i ++ " [shape=rectangle,label=\"" ++ v ++ "\""
            ++ (if si then ",xlabel=\"" ++ format_sddnode_xlabel (.lit i l vp) ++ "\"" else "")
            ++ "];"], i :: vis)) := by
  refine ⟨?_, ?_, ?_, ?_⟩
  · intro i vp vis m si v hfresh hlk
    have hv : SddNode.id (.tru i vp) ∉ vis := hfresh
    rw [toDotInt_leaf_fresh hv (by rfl)]
    simp [rectangleLine, format_sddnode_label, SddNode.isTrueN, SddNode.isFalseN,
      SddNode.id, hlk]
  · intro i vp vis m si v hfresh hlk
    have hv : SddNode.id (.fls i vp) ∉ vis := hfresh
    rw [toDotInt_leaf_fresh hv (by rfl)]
    simp [rectangleLine, format_sddnode_label, SddNode.isTrueN, SddNode.isFalseN,
      SddNode.id, hlk]
  · intro i es vp vis m si v lines vis' hfresh hlk h
    have hv : i ∉ vis := hfresh
    obtain ⟨s0, v2, hs, _, _, _, _, _⟩ := master_elems i es 0 (i :: vis) (some m) si (by simp)
    rw [toDotInt_dec_fresh hv, hs] at h
    simp only [Option.some.injEq, Prod.mk.injEq] at h
    rw [← h.1]
    simp [circleLine, format_sddnode_label, SddNode.id, lookupKey, hlk]
  · intro i l vp vis m si v hfresh hlk
    have hv : SddNode.id (.lit i l vp) ∉ vis := hfresh
    rw [toDotInt_leaf_fresh hv (by rfl)]
    simp [rectangleLine, format_sddnode_label, SddNode.isTrueN, SddNode.isFalseN,
      SddNode.isLiteralN, SddNode.literal, SddNode.id, hlk]

/-- C10 witness: a label map with entries for the glyphs and for literal 5
remaps the labels of a True node, a False node, a Decision node, and a
Literal node. -/
theorem claim_C10_witness :
    sddnode_to_dot_int (.tru 1 none) []
        (some [(.str "⟙", "TOP"), (.str "⟘", "BOT"), (.str "+", "OR"), (.int 5, "x5")]) false
      = some (["1 [shape=rectangle,label=\"TOP\"];"], [1])
    ∧ sddnode_to_dot_int (.fls 2 none) []
        (some [(.str "⟙", "TOP"), (.str "⟘", "BOT"), (.str "+", "OR"), (.int 5, "x5")]) false
      = some (["2 [shape=rectangle,label=\"BOT\"];"], [2])
    ∧ (["3 [shape=circle,label=\"OR\"];"] : List String).head?
      = some ("3 [shape=circle,label=\"OR\"];")
    ∧ sddnode_to_dot_int (.lit 4 5 none) []
        (some [(.str "⟙", "TOP"), (.str "⟘", "BOT"), (.str "+", "OR"), (.int 5, "x5")]) false
      = some (["4 [shape=rectangle,label=\"x5\"];"], [4]) := by
  refine ⟨?_, ?_, ?_, ?_⟩
  · exact claim_C10.1 1 none [] [(.str "⟙", "TOP"), (.str "⟘", "BOT"), (.str "+", "OR"), (.int 5, "x5")] false "TOP" (by decide) (by decide)
  · exact claim_C10.2.1 2 none [] [(.str "⟙", "TOP"), (.str "⟘", "BOT"), (.str "+", "OR"), (.int 5, "x5")] false "BOT" (by decide) (by decide)
  · exact claim_C10.2.2.1 3 .nil none [] [(.str "⟙", "TOP"), (.str "⟘", "BOT"), (.str "+", "OR"), (.int 5, "x5")] false "OR" ["3 [shape=circle,label=\"OR\"];"] [3]
      (by decide) (by decide) (by rfl)
  · exact claim_C10.2.2.2 4 5 none [] [(.str "⟙", "TOP"), (.str "⟘", "BOT"), (.str "+", "OR"), (.int 5, "x5")] false "x5" (by decide) (by decide)

end PySDD
